import Mathlib

/-!
# Verification of the bossphorus cuboid cache core

A shallow embedding, in Lean 4, of the core algorithms of the bossphorus
read-through / write-through cuboid cache:

* `src/data_manager.rs`: `Vector3`, `get_cuboids_and_indices`, and the
  `ChunkedFileDataManager` implementation of `get_data` / `put_data`.
  Machine integers (`u64`) are modelled as `Nat`; none of the verified
  properties depend on wrap-around behaviour, and the Rust code panics
  (rather than wraps) on under/overflow in debug builds.  Division by a
  zero cuboid-size component panics in Rust; all theorems therefore
  assume a positive cuboid size, as fixed at startup.
* `src/db.rs`: `SqliteCacheInterface::log_request` and
  `SqliteCacheInterface::clean_cache`, with the SQLite table modelled as
  an in-memory list of rows and the pluggable file remover / DB row
  remover modelled as boolean oracles.
* `src/usage_tracker.rs`: the `run` single-initialisation contract, with
  the global `SENDER_MUTEX` cell modelled as a boolean state.

Filesystem effects are modelled by an explicit store (a map from block
identity to raw byte content); `panic!` / `unwrap` failures are modelled
by `Option`.
-/

namespace Bossphorus

/-- `Vector3` from `src/data_manager.rs`: a triple of (non-negative)
coordinates, used both for global positions and cuboid indices. -/
structure Vector3 where
  x : Nat
  y : Nat
  z : Nat
deriving DecidableEq, Repr

/-- The inclusive Rust range `a..=b` (empty when `b < a`). -/
def cuboidRange (a b : Nat) : List Nat :=
  (List.range (b + 1 - a)).map (a + ·)

/-- `get_cuboids_and_indices` from `src/data_manager.rs` (lines 134-206):
maps a global cutout window `[coords_start, coords_stop)` to the list of
covered cuboid indices, each paired with the local start and stop
coordinates of the cutout inside that cuboid.  The Rust function returns
a `HashMap`; each index triple is inserted exactly once, so the list of
key-value pairs produced in loop order is a faithful model. -/
def get_cuboids_and_indices (coords_start coords_stop cuboid_size : Vector3) :
    List (Vector3 × Vector3 × Vector3) :=
  let start_cuboid : Vector3 :=
    ⟨coords_start.x / cuboid_size.x, coords_start.y / cuboid_size.y,
      coords_start.z / cuboid_size.z⟩
  let stop_cuboid : Vector3 :=
    ⟨coords_stop.x / cuboid_size.x, coords_stop.y / cuboid_size.y,
      coords_stop.z / cuboid_size.z⟩
  (cuboidRange start_cuboid.x stop_cuboid.x).flatMap fun cuboid_index_x =>
    (cuboidRange start_cuboid.y stop_cuboid.y).flatMap fun cuboid_index_y =>
      (cuboidRange start_cuboid.z stop_cuboid.z).map fun cuboid_index_z =>
        (⟨cuboid_index_x, cuboid_index_y, cuboid_index_z⟩,
          (⟨if coords_start.x ≤ cuboid_size.x * cuboid_index_x then 0
              else coords_start.x % cuboid_size.x,
            if coords_start.y ≤ cuboid_size.y * cuboid_index_y then 0
              else coords_start.y % cuboid_size.y,
            if coords_start.z ≤ cuboid_size.z * cuboid_index_z then 0
              else coords_start.z % cuboid_size.z⟩ : Vector3),
          (⟨if cuboid_size.x * (1 + cuboid_index_x) ≤ coords_stop.x then cuboid_size.x
              else coords_stop.x % cuboid_size.x,
            if cuboid_size.y * (1 + cuboid_index_y) ≤ coords_stop.y then cuboid_size.y
              else coords_stop.y % cuboid_size.y,
            if cuboid_size.z * (1 + cuboid_index_z) ≤ coords_stop.z then cuboid_size.z
              else coords_stop.z % cuboid_size.z⟩ : Vector3))

/-- The per-axis local start rule of the decomposer. -/
def localStartAxis (s S i : Nat) : Nat :=
  if s ≤ S * i then 0 else s % S

/-- The per-axis local stop rule of the decomposer. -/
def localStopAxis (t S i : Nat) : Nat :=
  if S * (1 + i) ≤ t then S else t % S

/-- The local start coordinates of a cuboid, axis by axis. -/
def startCoordsOf (coords_start cuboid_size i : Vector3) : Vector3 :=
  ⟨localStartAxis coords_start.x cuboid_size.x i.x,
    localStartAxis coords_start.y cuboid_size.y i.y,
    localStartAxis coords_start.z cuboid_size.z i.z⟩

/-- The local stop coordinates of a cuboid, axis by axis. -/
def stopCoordsOf (coords_stop cuboid_size i : Vector3) : Vector3 :=
  ⟨localStopAxis coords_stop.x cuboid_size.x i.x,
    localStopAxis coords_stop.y cuboid_size.y i.y,
    localStopAxis coords_stop.z cuboid_size.z i.z⟩

theorem mem_cuboidRange {a b n : Nat} : n ∈ cuboidRange a b ↔ a ≤ n ∧ n ≤ b := by
  unfold cuboidRange
  simp only [List.mem_map, List.mem_range]
  constructor
  · rintro ⟨k, hk, rfl⟩
    omega
  · rintro ⟨h1, h2⟩
    exact ⟨n - a, by omega, by omega⟩

theorem length_cuboidRange (a b : Nat) : (cuboidRange a b).length = b + 1 - a := by
  simp [cuboidRange]

/-- Membership characterisation of the decomposition: an entry is in the
map iff its index lies in the inclusive block range on each axis and its
local coordinates are given by the per-axis rules. -/
theorem mem_get_cuboids_and_indices {s t S : Vector3}
    {e : Vector3 × Vector3 × Vector3} :
    e ∈ get_cuboids_and_indices s t S ↔
      (s.x / S.x ≤ e.1.x ∧ e.1.x ≤ t.x / S.x) ∧
      (s.y / S.y ≤ e.1.y ∧ e.1.y ≤ t.y / S.y) ∧
      (s.z / S.z ≤ e.1.z ∧ e.1.z ≤ t.z / S.z) ∧
      e.2.1 = startCoordsOf s S e.1 ∧ e.2.2 = stopCoordsOf t S e.1 := by
  unfold get_cuboids_and_indices
  simp only [List.mem_flatMap, List.mem_map, mem_cuboidRange]
  constructor
  · rintro ⟨ix, hix, iy, hiy, iz, hiz, rfl⟩
    refine ⟨hix, hiy, hiz, ?_, ?_⟩ <;>
      simp [startCoordsOf, stopCoordsOf, localStartAxis, localStopAxis]
  · obtain ⟨⟨ix, iy, iz⟩, a, b⟩ := e
    rintro ⟨hix, hiy, hiz, ha, hb⟩
    refine ⟨ix, hix, iy, hiy, iz, hiz, ?_⟩
    simp only [startCoordsOf, stopCoordsOf, localStartAxis, localStopAxis] at ha hb
    simp [ha, hb]

/-- Entries with equal cuboid indices are equal: the local coordinates
are a function of the index. -/
theorem get_cuboids_eq_of_index_eq {s t S : Vector3}
    {e₁ e₂ : Vector3 × Vector3 × Vector3}
    (h₁ : e₁ ∈ get_cuboids_and_indices s t S)
    (h₂ : e₂ ∈ get_cuboids_and_indices s t S) (h : e₁.1 = e₂.1) : e₁ = e₂ := by
  rw [mem_get_cuboids_and_indices] at h₁ h₂
  obtain ⟨_, _, _, ha₁, hb₁⟩ := h₁
  obtain ⟨_, _, _, ha₂, hb₂⟩ := h₂
  obtain ⟨i₁, a₁, b₁⟩ := e₁
  obtain ⟨i₂, a₂, b₂⟩ := e₂
  simp only at h ha₁ hb₁ ha₂ hb₂
  subst h
  simp [ha₁, hb₁, ha₂, hb₂]

theorem length_flatMap_map {β γ δ : Type} (ly : List β) (lz : List γ)
    (F : β → γ → δ) :
    (ly.flatMap fun b => lz.map fun c => F b c).length = ly.length * lz.length := by
  induction ly with
  | nil => simp
  | cons b ly ih =>
      simp only [List.flatMap_cons, List.length_append, List.length_map, ih,
        List.length_cons, Nat.succ_mul]
      omega

theorem length_flatMap_flatMap_map {α β γ δ : Type} (lx : List α) (ly : List β)
    (lz : List γ) (F : α → β → γ → δ) :
    (lx.flatMap fun a => ly.flatMap fun b => lz.map fun c => F a b c).length =
      lx.length * (ly.length * lz.length) := by
  induction lx with
  | nil => simp
  | cons a lx ih =>
      simp only [List.flatMap_cons, List.length_append, ih, length_flatMap_map,
        List.length_cons, Nat.succ_mul]
      omega

theorem length_get_cuboids_and_indices (s t S : Vector3) :
    (get_cuboids_and_indices s t S).length =
      (t.x / S.x + 1 - s.x / S.x) * ((t.y / S.y + 1 - s.y / S.y) *
        (t.z / S.z + 1 - s.z / S.z)) := by
  unfold get_cuboids_and_indices
  rw [length_flatMap_flatMap_map]
  simp [length_cuboidRange]

/-- On each axis, the global start of an entry's local window is the
clipped start `max (S * i) s`. -/
theorem localStartAxis_add {s S i : Nat} (hS : 0 < S) (hi : s / S ≤ i) :
    S * i + localStartAxis s S i = max (S * i) s := by
  have hdm : S * (s / S) + s % S = s := Nat.div_add_mod s S
  have hmod : s % S < S := Nat.mod_lt _ hS
  unfold localStartAxis
  split
  · rename_i h
    rw [Nat.max_eq_left h, Nat.add_zero]
  · rename_i h
    have h2 : S * i < s := by omega
    have h3 : i * S ≤ s := by rw [Nat.mul_comm]; omega
    have h1 : i ≤ s / S := (Nat.le_div_iff_mul_le hS).mpr h3
    have h4 : s / S = i := le_antisymm hi h1
    rw [Nat.max_eq_right (le_of_lt h2), ← h4]
    exact hdm

/-- On each axis, the global stop of an entry's local window is the
clipped stop `min (S * (i + 1)) t`. -/
theorem localStopAxis_add {t S i : Nat} (hS : 0 < S) (hi : i ≤ t / S) :
    S * i + localStopAxis t S i = min (S * (i + 1)) t := by
  have hdm : S * (t / S) + t % S = t := Nat.div_add_mod t S
  have hmod : t % S < S := Nat.mod_lt _ hS
  have hexp : S * (i + 1) = S * i + S := by ring
  have hcomm : S * (1 + i) = S * (i + 1) := by ring
  unfold localStopAxis
  split
  · rename_i h
    rw [Nat.min_eq_left (by omega)]
    omega
  · rename_i h
    have h2 : t < S * (i + 1) := by omega
    have h3 : t < (i + 1) * S := by rw [Nat.mul_comm]; omega
    have h1 : t / S < i + 1 := (Nat.div_lt_iff_lt_mul hS).mpr h3
    have h4 : t / S = i := le_antisymm (by omega) hi
    rw [Nat.min_eq_right (le_of_lt h2), ← h4]
    exact hdm

/-- Per-axis point characterisation: a coordinate lies in cuboid `i`'s
local window mapped back to global coordinates iff it lies in the global
request interval and `i` is its block index. -/
theorem axis_window_mem {s t S i p : Nat} (hS : 0 < S)
    (hi1 : s / S ≤ i) (hi2 : i ≤ t / S) :
    (S * i + localStartAxis s S i ≤ p ∧ p < S * i + localStopAxis t S i) ↔
      (s ≤ p ∧ p < t ∧ p / S = i) := by
  rw [localStartAxis_add hS hi1, localStopAxis_add hS hi2]
  constructor
  · rintro ⟨h1, h2⟩
    have hip1 : S * i ≤ p := le_trans (le_max_left _ _) h1
    have hip2 : p < S * (i + 1) := lt_of_lt_of_le h2 (min_le_left _ _)
    have hp3 : p < (i + 1) * S := by rw [Nat.mul_comm]; omega
    have hd1 : p / S < i + 1 := (Nat.div_lt_iff_lt_mul hS).mpr hp3
    have hp4 : i * S ≤ p := by rw [Nat.mul_comm]; omega
    have hd2 : i ≤ p / S := (Nat.le_div_iff_mul_le hS).mpr hp4
    exact ⟨le_trans (le_max_right _ _) h1, lt_of_lt_of_le h2 (min_le_right _ _),
      by omega⟩
  · rintro ⟨h1, h2, h3⟩
    have hdm : S * (p / S) + p % S = p := Nat.div_add_mod p S
    have hmod : p % S < S := Nat.mod_lt _ hS
    have hexp : S * (i + 1) = S * i + S := by ring
    subst h3
    constructor
    · exact max_le (by omega) h1
    · exact lt_min (by omega) h2

/-- The per-axis local start never exceeds the cuboid size. -/
theorem localStartAxis_le {s S i : Nat} (hS : 0 < S) : localStartAxis s S i ≤ S := by
  unfold localStartAxis
  split
  · omega
  · exact le_of_lt (Nat.mod_lt _ hS)

/-- The per-axis local stop never exceeds the cuboid size. -/
theorem localStopAxis_le {t S i : Nat} (hS : 0 < S) : localStopAxis t S i ≤ S := by
  unfold localStopAxis
  split
  · exact le_refl S
  · exact le_of_lt (Nat.mod_lt _ hS)

/-- The half-open global box `[s, t)` (componentwise). -/
def inBox (s t q : Vector3) : Prop :=
  (s.x ≤ q.x ∧ q.x < t.x) ∧ (s.y ≤ q.y ∧ q.y < t.y) ∧ (s.z ≤ q.z ∧ q.z < t.z)

instance (s t q : Vector3) : Decidable (inBox s t q) := by
  unfold inBox; infer_instance

/-- A decomposition entry `(index, localStart, localStop)` covers the
global point `q`: `q` lies in the entry's local window mapped back to
global coordinates. -/
def coversPoint (S : Vector3) (e : Vector3 × Vector3 × Vector3) (q : Vector3) : Prop :=
  (S.x * e.1.x + e.2.1.x ≤ q.x ∧ q.x < S.x * e.1.x + e.2.2.x) ∧
  (S.y * e.1.y + e.2.1.y ≤ q.y ∧ q.y < S.y * e.1.y + e.2.2.y) ∧
  (S.z * e.1.z + e.2.1.z ≤ q.z ∧ q.z < S.z * e.1.z + e.2.2.z)

instance (S : Vector3) (e : Vector3 × Vector3 × Vector3) (q : Vector3) :
    Decidable (coversPoint S e q) := by
  unfold coversPoint; infer_instance

/-- A decomposition entry covers exactly the points of the request box
whose block index is the entry's index. -/
theorem coversPoint_iff {s t S : Vector3} {e : Vector3 × Vector3 × Vector3}
    {q : Vector3} (hx : 0 < S.x) (hy : 0 < S.y) (hz : 0 < S.z)
    (he : e ∈ get_cuboids_and_indices s t S) :
    coversPoint S e q ↔
      inBox s t q ∧ q.x / S.x = e.1.x ∧ q.y / S.y = e.1.y ∧ q.z / S.z = e.1.z := by
  rw [mem_get_cuboids_and_indices] at he
  obtain ⟨⟨hx1, hx2⟩, ⟨hy1, hy2⟩, ⟨hz1, hz2⟩, ha, hb⟩ := he
  unfold coversPoint inBox
  rw [ha, hb]
  unfold startCoordsOf stopCoordsOf
  simp only
  rw [axis_window_mem hx hx1 hx2, axis_window_mem hy hy1 hy2,
    axis_window_mem hz hz1 hz2]
  tauto

/-- Every point of the request box is covered by the canonical entry
with index `q / S`. -/
theorem exists_covering_entry {s t S q : Vector3} (hx : 0 < S.x) (hy : 0 < S.y)
    (hz : 0 < S.z) (hq : inBox s t q) :
    ∃ e ∈ get_cuboids_and_indices s t S,
      e.1 = ⟨q.x / S.x, q.y / S.y, q.z / S.z⟩ ∧ coversPoint S e q := by
  obtain ⟨⟨hqx1, hqx2⟩, ⟨hqy1, hqy2⟩, ⟨hqz1, hqz2⟩⟩ := hq
  refine ⟨(⟨q.x / S.x, q.y / S.y, q.z / S.z⟩,
    startCoordsOf s S ⟨q.x / S.x, q.y / S.y, q.z / S.z⟩,
    stopCoordsOf t S ⟨q.x / S.x, q.y / S.y, q.z / S.z⟩), ?_, rfl, ?_⟩
  · rw [mem_get_cuboids_and_indices]
    refine ⟨⟨Nat.div_le_div_right hqx1, Nat.div_le_div_right (le_of_lt hqx2)⟩,
      ⟨Nat.div_le_div_right hqy1, Nat.div_le_div_right (le_of_lt hqy2)⟩,
      ⟨Nat.div_le_div_right hqz1, Nat.div_le_div_right (le_of_lt hqz2)⟩, rfl, rfl⟩
  · unfold coversPoint startCoordsOf stopCoordsOf
    simp only
    rw [axis_window_mem hx (Nat.div_le_div_right hqx1)
        (Nat.div_le_div_right (le_of_lt hqx2)),
      axis_window_mem hy (Nat.div_le_div_right hqy1)
        (Nat.div_le_div_right (le_of_lt hqy2)),
      axis_window_mem hz (Nat.div_le_div_right hqz1)
        (Nat.div_le_div_right (le_of_lt hqz2))]
    exact ⟨⟨hqx1, hqx2, rfl⟩, ⟨hqy1, hqy2, rfl⟩, ⟨hqz1, hqz2, rfl⟩⟩

/-- Two distinct entries of the decomposition never cover the same
point. -/
theorem coversPoint_unique {s t S : Vector3} {e₁ e₂ : Vector3 × Vector3 × Vector3}
    {q : Vector3} (hx : 0 < S.x) (hy : 0 < S.y) (hz : 0 < S.z)
    (h₁ : e₁ ∈ get_cuboids_and_indices s t S)
    (h₂ : e₂ ∈ get_cuboids_and_indices s t S)
    (hc₁ : coversPoint S e₁ q) (hc₂ : coversPoint S e₂ q) : e₁ = e₂ := by
  rw [coversPoint_iff hx hy hz h₁] at hc₁
  rw [coversPoint_iff hx hy hz h₂] at hc₂
  refine get_cuboids_eq_of_index_eq h₁ h₂ ?_
  obtain ⟨i₁, a₁, b₁⟩ := e₁
  obtain ⟨i₂, a₂, b₂⟩ := e₂
  obtain ⟨_, hx1, hy1, hz1⟩ := hc₁
  obtain ⟨_, hx2, hy2, hz2⟩ := hc₂
  simp only at hx1 hy1 hz1 hx2 hy2 hz2 ⊢
  obtain ⟨_, _, _⟩ := i₁
  obtain ⟨_, _, _⟩ := i₂
  simp only at hx1 hy1 hz1 hx2 hy2 hz2
  subst hx1 hy1 hz1
  simp [hx2, hy2, hz2]

/-- Claim C2: for every `(start, stop, S)` with `stop ≥ start`
componentwise and every component of `S` positive, the local sub-windows
returned by `get_cuboids_and_indices start stop S`, mapped back to
global coordinates via their cuboid index, are pairwise disjoint and
their union is exactly the half-open box `[start, stop)`. -/
theorem C2_decomposition_coverage (s t S : Vector3) (hx : 0 < S.x) (hy : 0 < S.y)
    (hz : 0 < S.z) (hst : s.x ≤ t.x ∧ s.y ≤ t.y ∧ s.z ≤ t.z) :
    (∀ q : Vector3,
      (∃ e ∈ get_cuboids_and_indices s t S, coversPoint S e q) ↔ inBox s t q) ∧
    (∀ e₁ ∈ get_cuboids_and_indices s t S, ∀ e₂ ∈ get_cuboids_and_indices s t S,
      e₁ ≠ e₂ → ∀ q : Vector3, ¬(coversPoint S e₁ q ∧ coversPoint S e₂ q)) := by
  constructor
  · intro q
    constructor
    · rintro ⟨e, he, hc⟩
      exact ((coversPoint_iff hx hy hz he).mp hc).1
    · intro hq
      obtain ⟨e, he, _, hc⟩ := exists_covering_entry hx hy hz hq
      exact ⟨e, he, hc⟩
  · intro e₁ h₁ e₂ h₂ hne q ⟨hc₁, hc₂⟩
    exact hne (coversPoint_unique hx hy hz h₁ h₂ hc₁ hc₂)

/-- Claim C2, witness: the hypotheses are satisfiable at a concrete
input. -/
theorem C2_decomposition_coverage_witness :
    (0 < 4 ∧ 0 < 4 ∧ 0 < 4 ∧ (3 ≤ 5 ∧ 0 ≤ 1 ∧ 0 ≤ 1)) ∧
    ((∀ q : Vector3,
      (∃ e ∈ get_cuboids_and_indices ⟨3, 0, 0⟩ ⟨5, 1, 1⟩ ⟨4, 4, 4⟩,
        coversPoint ⟨4, 4, 4⟩ e q) ↔ inBox ⟨3, 0, 0⟩ ⟨5, 1, 1⟩ q) ∧
    (∀ e₁ ∈ get_cuboids_and_indices ⟨3, 0, 0⟩ ⟨5, 1, 1⟩ ⟨4, 4, 4⟩,
      ∀ e₂ ∈ get_cuboids_and_indices ⟨3, 0, 0⟩ ⟨5, 1, 1⟩ ⟨4, 4, 4⟩,
      e₁ ≠ e₂ → ∀ q : Vector3,
        ¬(coversPoint ⟨4, 4, 4⟩ e₁ q ∧ coversPoint ⟨4, 4, 4⟩ e₂ q))) :=
  ⟨by decide,
    C2_decomposition_coverage ⟨3, 0, 0⟩ ⟨5, 1, 1⟩ ⟨4, 4, 4⟩ (by decide) (by decide)
      (by decide) (by decide)⟩

/-- Claim C3: the decomposition returns exactly
`(⌊stop/S⌋ − ⌊start/S⌋ + 1)` entries per axis, multiplied over the three
axes, and each returned entry's local coordinates obey the per-axis
rules (`localStart = 0` if `start ≤ i·S`, else `start mod S`;
`localStop = S` if `stop ≥ (i+1)·S`, else `stop mod S`), with every
local range within `[0, S]`. -/
theorem C3_decomposition_rules (s t S : Vector3) (hx : 0 < S.x) (hy : 0 < S.y)
    (hz : 0 < S.z) (hst : s.x ≤ t.x ∧ s.y ≤ t.y ∧ s.z ≤ t.z) :
    (get_cuboids_and_indices s t S).length =
      (t.x / S.x - s.x / S.x + 1) * ((t.y / S.y - s.y / S.y + 1) *
        (t.z / S.z - s.z / S.z + 1)) ∧
    ∀ e ∈ get_cuboids_and_indices s t S,
      e.2.1 = startCoordsOf s S e.1 ∧ e.2.2 = stopCoordsOf t S e.1 ∧
      e.2.1.x ≤ S.x ∧ e.2.1.y ≤ S.y ∧ e.2.1.z ≤ S.z ∧
      e.2.2.x ≤ S.x ∧ e.2.2.y ≤ S.y ∧ e.2.2.z ≤ S.z := by
  constructor
  · rw [length_get_cuboids_and_indices]
    have hdx : s.x / S.x ≤ t.x / S.x := Nat.div_le_div_right hst.1
    have hdy : s.y / S.y ≤ t.y / S.y := Nat.div_le_div_right hst.2.1
    have hdz : s.z / S.z ≤ t.z / S.z := Nat.div_le_div_right hst.2.2
    have e1 : t.x / S.x + 1 - s.x / S.x = t.x / S.x - s.x / S.x + 1 := by omega
    have e2 : t.y / S.y + 1 - s.y / S.y = t.y / S.y - s.y / S.y + 1 := by omega
    have e3 : t.z / S.z + 1 - s.z / S.z = t.z / S.z - s.z / S.z + 1 := by omega
    rw [e1, e2, e3]
  · intro e he
    rw [mem_get_cuboids_and_indices] at he
    obtain ⟨_, _, _, ha, hb⟩ := he
    refine ⟨ha, hb, ?_, ?_, ?_, ?_, ?_, ?_⟩
    · rw [ha]; exact localStartAxis_le hx
    · rw [ha]; exact localStartAxis_le hy
    · rw [ha]; exact localStartAxis_le hz
    · rw [hb]; exact localStopAxis_le hx
    · rw [hb]; exact localStopAxis_le hy
    · rw [hb]; exact localStopAxis_le hz

/-- Claim C3, witness: the hypotheses are satisfiable at a concrete
input. -/
theorem C3_decomposition_rules_witness :
    (0 < 4 ∧ 0 < 4 ∧ 0 < 4 ∧ (3 ≤ 9 ∧ 2 ≤ 5 ∧ 0 ≤ 4)) ∧
    ((get_cuboids_and_indices ⟨3, 2, 0⟩ ⟨9, 5, 4⟩ ⟨4, 4, 4⟩).length =
      (9 / 4 - 3 / 4 + 1) * ((5 / 4 - 2 / 4 + 1) * (4 / 4 - 0 / 4 + 1)) ∧
    ∀ e ∈ get_cuboids_and_indices ⟨3, 2, 0⟩ ⟨9, 5, 4⟩ ⟨4, 4, 4⟩,
      e.2.1 = startCoordsOf ⟨3, 2, 0⟩ ⟨4, 4, 4⟩ e.1 ∧
      e.2.2 = stopCoordsOf ⟨9, 5, 4⟩ ⟨4, 4, 4⟩ e.1 ∧
      e.2.1.x ≤ 4 ∧ e.2.1.y ≤ 4 ∧ e.2.1.z ≤ 4 ∧
      e.2.2.x ≤ 4 ∧ e.2.2.y ≤ 4 ∧ e.2.2.z ≤ 4) :=
  ⟨by decide,
    C3_decomposition_rules ⟨3, 2, 0⟩ ⟨9, 5, 4⟩ ⟨4, 4, 4⟩ (by decide) (by decide)
      (by decide) (by decide)⟩

/-- Raw block-file content: a list of bytes (one `Nat` per `u8` value). -/
abbrev Bytes := List Nat

/-- A model of `ndarray::Array3<u8>` in standard (C, row-major) layout:
`dim0`/`dim1`/`dim2` are the Z, Y, X extents and `val z y x` the voxel
value.  Values outside the shape are irrelevant; array equality is the
shape-respecting `Array3.equiv` below. -/
structure Array3 where
  dim0 : Nat
  dim1 : Nat
  dim2 : Nat
  val : Nat → Nat → Nat → Nat

/-- Bit-for-bit equality of two 3-D arrays: same shape, same voxels. -/
def Array3.equiv (A B : Array3) : Prop :=
  A.dim0 = B.dim0 ∧ A.dim1 = B.dim1 ∧ A.dim2 = B.dim2 ∧
  ∀ z < A.dim0, ∀ y < A.dim1, ∀ x < A.dim2, A.val z y x = B.val z y x

/-- `Array::zeros((d0, d1, d2))`. -/
def Array3.zeros (d0 d1 d2 : Nat) : Array3 :=
  ⟨d0, d1, d2, fun _ _ _ => 0⟩

/-- `Array::from_shape_vec((d0, d1, d2), data).unwrap()`, as used on raw
block bytes; the `unwrap` panics (`none`) unless the byte count matches
the shape.  A standard-layout `Array3` indexes its flat data Z-major:
flat index `z·(d1·d2) + y·d2 + x`. -/
def Array3.from_shape_vec (d0 d1 d2 : Nat) (data : Bytes) : Option Array3 :=
  if data.length = d0 * (d1 * d2) then
    some ⟨d0, d1, d2, fun z y x => data.getD (z * (d1 * d2) + y * d2 + x) 0⟩
  else none

/-- `array.into_raw_vec()`: the Z-major flattening of a standard-layout
array, written here directly by flat index. -/
def Array3.into_raw_vec (A : Array3) : Bytes :=
  (List.range (A.dim0 * (A.dim1 * A.dim2))).map fun k =>
    A.val (k / (A.dim1 * A.dim2)) (k % (A.dim1 * A.dim2) / A.dim2) (k % A.dim2)

/-- `array.slice(s![z0..z1, y0..y1, x0..x1])` (in-bounds use only, as in
the source; `ndarray` panics on an out-of-bounds slice). -/
def Array3.slice (A : Array3) (z0 z1 y0 y1 x0 x1 : Nat) : Array3 :=
  ⟨z1 - z0, y1 - y0, x1 - x0, fun z y x => A.val (z0 + z) (y0 + y) (x0 + x)⟩

/-- `target.slice_mut(s![z0.., y0.., x0..]).assign(&B)`: overwrite the
sub-window of `A` starting at `(z0, y0, x0)` of `B`'s shape with `B`. -/
def Array3.assignAt (A : Array3) (z0 y0 x0 : Nat) (B : Array3) : Array3 :=
  ⟨A.dim0, A.dim1, A.dim2, fun z y x =>
    if z0 ≤ z ∧ z < z0 + B.dim0 ∧ y0 ≤ y ∧ y < y0 + B.dim1 ∧
        x0 ≤ x ∧ x < x0 + B.dim2 then
      B.val (z - z0) (y - y0) (x - x0)
    else A.val z y x⟩

/-- The identity of a block file.  On disk the path is
`<file_path>/<channel>/<res>/x<Ix>_y<Iy>_z<Iz>`; for a fixed cache root
this path determines and is determined by the triple below (the
resolution and index segments never contain `/`), so the filesystem is
modelled as a map keyed by the triple. -/
structure BlockKey where
  channel : String
  resolution : Nat
  index : Vector3
deriving DecidableEq

/-- The block filesystem: `none` models a missing file, `some bytes` a
file with the given raw content (a 0-byte file is `some []`). -/
def Store := BlockKey → Option Bytes

/-- Creating/truncating and writing a block file. -/
def Store.write (st : Store) (k : BlockKey) (v : Bytes) : Store :=
  fun q => if q = k then some v else st q

/-- The characters after the first occurrence of the separator `://`,
or `none` when the separator is absent. -/
def splitFirst : List Char → Option (List Char)
  | ':' :: '/' :: '/' :: rest => some rest
  | _ :: rest => splitFirst rest
  | [] => none

/-- The characters before the next occurrence of the separator `://`
(everything, when there is no further separator). -/
def takeUntilSep : List Char → List Char
  | ':' :: '/' :: '/' :: _ => []
  | c :: rest => c :: takeUntilSep rest
  | [] => []

/-- `uri.split("://").collect::<Vec<_>>()[1]`: the piece between the
first and second occurrences of `://` (to the end when there is only
one); the index panics (`none`) when the separator is absent. -/
def uriChannel (uri : String) : Option String :=
  match splitFirst uri.data with
  | none => none
  | some rest => some (String.mk (takeUntilSep rest))

/-- Sequential processing of the decomposition entries, propagating a
panic (`none`) and threading the state, as the Rust `for` loop does. -/
def foldOpt {σ α : Type} (f : σ → α → Option σ) : σ → List α → Option σ
  | st, [] => some st
  | st, a :: l =>
    match f st a with
    | none => none
    | some st' => foldOpt f st' l

/-- `ChunkedFileDataManager` (src/data_manager.rs, lines 98-109): the
cuboid size and usage-tracking flag; the `file_path` root is the fixed
prefix of every block path and is absorbed into the store keying. -/
structure ChunkedFileDataManager where
  cuboid_size : Vector3
  track_usage : Bool

/-- The next layer's `get_data`, as a pure oracle from
`(channel, resolution, origin, destination)` to the returned array. -/
def NextLayer := String → Nat → Vector3 → Vector3 → Array3

namespace ChunkedFileDataManager

/-- The `put_data` read of an existing block (src/data_manager.rs, lines
404-438): if the file exists and is nonempty, reinterpret its bytes as a
`(Sz, Sy, Sx)` array (`unwrap` panics on a size mismatch → `none`);
otherwise (after creating directories and an empty file) start from a
zero-filled block. -/
def readBlockForPut (S : Vector3) (file : Option Bytes) : Option Array3 :=
  match file with
  | some d =>
      if 0 < d.length then Array3.from_shape_vec S.z S.y S.x d
      else some (Array3.zeros S.z S.y S.x)
  | none => some (Array3.zeros S.z S.y S.x)

/-- The merge performed by one `put_data` iteration (src/data_manager.rs,
lines 440-459): overwrite the block's local sub-window
`[start_ind, stop_ind)` with the matching global slice of the input
(whose offsets are `cuboid_index·S + local − origin` per axis). -/
def putMerge (S origin : Vector3) (data : Array3)
    (e : Vector3 × Vector3 × Vector3) (array : Array3) : Array3 :=
  array.assignAt e.2.1.z e.2.1.y e.2.1.x
    (data.slice (e.1.z * S.z + e.2.1.z - origin.z) (e.1.z * S.z + e.2.2.z - origin.z)
      (e.1.y * S.y + e.2.1.y - origin.y) (e.1.y * S.y + e.2.2.y - origin.y)
      (e.1.x * S.x + e.2.1.x - origin.x) (e.1.x * S.x + e.2.2.x - origin.x))

/-- One iteration of the `put_data` loop (src/data_manager.rs, lines
398-471) for entry `(cuboid_index, start_ind, stop_ind)`: read the
existing block (or zeros), merge in the input slice, and write the block
file back. -/
def putStep (m : ChunkedFileDataManager) (channel : String) (res : Nat)
    (origin : Vector3) (data : Array3) (st : Store)
    (e : Vector3 × Vector3 × Vector3) : Option Store :=
  let S := m.cuboid_size
  let key : BlockKey := ⟨channel, res, e.1⟩
  match readBlockForPut S (st key) with
  | none => none
  | some array =>
    some (st.write key (putMerge S origin data e array).into_raw_vec)

/-- `ChunkedFileDataManager::put_data` (src/data_manager.rs, lines
386-473).  The stop corner is `origin + shape(data)` with the X extent
taken from `Axis(2)`, Y from `Axis(1)`, Z from `Axis(0)`.  Returns the
updated store and the reported success boolean (the source returns
`true` unconditionally at the end of the loop; per-block write errors
are only printed). -/
def put_data (m : ChunkedFileDataManager) (uri : String) (res : Nat)
    (origin : Vector3) (data : Array3) (st : Store) : Option (Store × Bool) :=
  match uriChannel uri with
  | none => none
  | some channel =>
    let stop : Vector3 :=
      ⟨origin.x + data.dim2, origin.y + data.dim1, origin.z + data.dim0⟩
    let cuboids := get_cuboids_and_indices origin stop m.cuboid_size
    match foldOpt (putStep m channel res origin data) st cuboids with
    | none => none
    | some st' => some (st', true)

/-- The running state of the `get_data` loop: the output buffer, the
block store, the calls made to the next layer, and the block keys sent
to the usage pipeline. -/
structure GetState where
  large : Array3
  store : Store
  upcalls : List (String × Nat × Vector3 × Vector3)
  events : List BlockKey

/-- One iteration of the `get_data` loop (src/data_manager.rs, lines
275-369) for entry `(cuboid_index, start_ind, stop_ind)`: publish the
block key to the usage pipeline (when tracking is on), then read the
block if its file exists (existence only — no nonemptiness test, so an
existing wrong-sized file panics in `from_shape_vec(..).unwrap()`);
on a miss, fetch the full per-axis-aligned cuboid from the next layer,
write it back through `put_data`, and use the freshly returned array;
finally copy the local sub-window into the output buffer. -/
def copyOut (S origin : Vector3) (e : Vector3 × Vector3 × Vector3)
    (array large : Array3) : Array3 :=
  large.assignAt (e.1.z * S.z + e.2.1.z - origin.z)
    (e.1.y * S.y + e.2.1.y - origin.y) (e.1.x * S.x + e.2.1.x - origin.x)
    (array.slice e.2.1.z e.2.2.z e.2.1.y e.2.2.y e.2.1.x e.2.2.x)

/-- The full cuboid-aligned origin used on a miss (src/data_manager.rs,
lines 317-322): `cuboid_index · S`, per-axis component on each axis. -/
def cuboidOriginOf (S i : Vector3) : Vector3 :=
  ⟨i.x * S.x, i.y * S.y, i.z * S.z⟩

/-- The full cuboid-aligned stop corner used on a miss: `(1 + index) · S`
per axis. -/
def cuboidStopOf (S i : Vector3) : Vector3 :=
  ⟨(1 + i.x) * S.x, (1 + i.y) * S.y, (1 + i.z) * S.z⟩

def getStep (m : ChunkedFileDataManager) (next : NextLayer) (uri channel : String)
    (res : Nat) (origin : Vector3) (st : GetState)
    (e : Vector3 × Vector3 × Vector3) : Option GetState :=
  let S := m.cuboid_size
  let key : BlockKey := ⟨channel, res, e.1⟩
  let events := if m.track_usage then st.events ++ [key] else st.events
  match st.store key with
  | some d =>
    match Array3.from_shape_vec S.z S.y S.x d with
    | none => none
    | some array =>
      some { large := copyOut S origin e array st.large,
             store := st.store, upcalls := st.upcalls, events := events }
  | none =>
    let array := next channel res (cuboidOriginOf S e.1) (cuboidStopOf S e.1)
    match put_data m uri res (cuboidOriginOf S e.1) array st.store with
    | none => none
    | some (st2, _) =>
      some { large := copyOut S origin e array st.large,
             store := st2,
             upcalls := st.upcalls ++
               [(channel, res, cuboidOriginOf S e.1, cuboidStopOf S e.1)],
             events := events }

/-- `ChunkedFileDataManager::get_data` (src/data_manager.rs, lines
258-372): decompose the request, allocate a zeroed output buffer of
shape `(dz, dy, dx)`, process every entry, and return the buffer (plus,
in this model, the final store and the observable upstream calls and
usage events). -/
def get_data (m : ChunkedFileDataManager) (next : NextLayer) (uri : String)
    (res : Nat) (origin destination : Vector3) (st : Store) :
    Option (Array3 × Store × List (String × Nat × Vector3 × Vector3) ×
      List BlockKey) :=
  match uriChannel uri with
  | none => none
  | some channel =>
    let cuboids := get_cuboids_and_indices origin destination m.cuboid_size
    let large0 := Array3.zeros (destination.z - origin.z)
      (destination.y - origin.y) (destination.x - origin.x)
    match foldOpt (getStep m next uri channel res origin)
        ⟨large0, st, [], []⟩ cuboids with
    | none => none
    | some g => some (g.large, g.store, g.upcalls, g.events)

end ChunkedFileDataManager

theorem Array3.length_into_raw_vec (A : Array3) :
    A.into_raw_vec.length = A.dim0 * (A.dim1 * A.dim2) := by
  simp [Array3.into_raw_vec]

theorem Array3.getD_into_raw_vec (A : Array3) {z y x : Nat}
    (hz : z < A.dim0) (hy : y < A.dim1) (hx : x < A.dim2) :
    A.into_raw_vec.getD (z * (A.dim1 * A.dim2) + y * A.dim2 + x) 0 =
      A.val z y x := by
  have hyx : y * A.dim2 + x < A.dim1 * A.dim2 := by
    have h1 : (y + 1) * A.dim2 = y * A.dim2 + A.dim2 := Nat.succ_mul y A.dim2
    have h2 : (y + 1) * A.dim2 ≤ A.dim1 * A.dim2 := Nat.mul_le_mul_right _ hy
    omega
  have hk : z * (A.dim1 * A.dim2) + (y * A.dim2 + x) <
      A.dim0 * (A.dim1 * A.dim2) := by
    have h1 : (z + 1) * (A.dim1 * A.dim2) =
        z * (A.dim1 * A.dim2) + A.dim1 * A.dim2 := Nat.succ_mul _ _
    have h2 : (z + 1) * (A.dim1 * A.dim2) ≤ A.dim0 * (A.dim1 * A.dim2) :=
      Nat.mul_le_mul_right _ hz
    omega
  have hsplit : z * (A.dim1 * A.dim2) + y * A.dim2 + x =
      (y * A.dim2 + x) + (A.dim1 * A.dim2) * z := by ring
  have hsplit2 : y * A.dim2 + x = x + A.dim2 * y := by ring
  unfold Array3.into_raw_vec
  rw [List.getD_eq_getElem?_getD, List.getElem?_map,
    List.getElem?_range (by omega), Option.map_some', Option.getD_some]
  have e1 : (z * (A.dim1 * A.dim2) + y * A.dim2 + x) / (A.dim1 * A.dim2) = z := by
    rw [hsplit, Nat.add_mul_div_left _ _ (by omega), Nat.div_eq_of_lt hyx,
      Nat.zero_add]
  have e2 : (z * (A.dim1 * A.dim2) + y * A.dim2 + x) % (A.dim1 * A.dim2) =
      y * A.dim2 + x := by
    rw [hsplit, Nat.add_mul_mod_self_left, Nat.mod_eq_of_lt hyx]
  have e3 : (y * A.dim2 + x) / A.dim2 = y := by
    rw [hsplit2, Nat.add_mul_div_left _ _ (by omega), Nat.div_eq_of_lt hx,
      Nat.zero_add]
  have hsplit3 : z * (A.dim1 * A.dim2) + y * A.dim2 + x =
      x + A.dim2 * (y + A.dim1 * z) := by ring
  have e5 : (z * (A.dim1 * A.dim2) + y * A.dim2 + x) % A.dim2 = x := by
    rw [hsplit3, Nat.add_mul_mod_self_left, Nat.mod_eq_of_lt hx]
  rw [e1, e2, e3, e5]

/-- The bytes of a stored block, reinterpreted at a local coordinate:
`from_shape_vec((Sz, Sy, Sx), d)` reads flat index
`z·(Sy·Sx) + y·Sx + x`. -/
def decodeVal (S : Vector3) (d : Bytes) (z y x : Nat) : Nat :=
  d.getD (z * (S.y * S.x) + y * S.x + x) 0

theorem from_shape_vec_eq_some {d0 d1 d2 : Nat} {d : Bytes}
    (h : d.length = d0 * (d1 * d2)) :
    Array3.from_shape_vec d0 d1 d2 d =
      some ⟨d0, d1, d2, fun z y x => d.getD (z * (d1 * d2) + y * d2 + x) 0⟩ := by
  simp [Array3.from_shape_vec, h]

theorem from_shape_vec_inv {d0 d1 d2 : Nat} {d : Bytes} {A : Array3}
    (h : Array3.from_shape_vec d0 d1 d2 d = some A) :
    d.length = d0 * (d1 * d2) ∧
      A = ⟨d0, d1, d2, fun z y x => d.getD (z * (d1 * d2) + y * d2 + x) 0⟩ := by
  unfold Array3.from_shape_vec at h
  split at h
  · rename_i hlen
    cases h
    exact ⟨hlen, rfl⟩
  · cases h

/-- Decoding a freshly flattened array recovers its in-bounds values. -/
theorem decodeVal_into_raw_vec {S : Vector3} {M : Array3}
    (h0 : M.dim0 = S.z) (h1 : M.dim1 = S.y) (h2 : M.dim2 = S.x)
    {z y x : Nat} (hz : z < S.z) (hy : y < S.y) (hx : x < S.x) :
    decodeVal S M.into_raw_vec z y x = M.val z y x := by
  unfold decodeVal
  rw [← h1, ← h2]
  exact M.getD_into_raw_vec (by omega) (by omega) (by omega)

theorem Array3.assignAt_dim0 (A B : Array3) (z0 y0 x0 : Nat) :
    (A.assignAt z0 y0 x0 B).dim0 = A.dim0 := rfl

theorem Array3.assignAt_dim1 (A B : Array3) (z0 y0 x0 : Nat) :
    (A.assignAt z0 y0 x0 B).dim1 = A.dim1 := rfl

theorem Array3.assignAt_dim2 (A B : Array3) (z0 y0 x0 : Nat) :
    (A.assignAt z0 y0 x0 B).dim2 = A.dim2 := rfl

theorem Array3.assignAt_val_of_mem {A B : Array3} {z0 y0 x0 z y x : Nat}
    (h : z0 ≤ z ∧ z < z0 + B.dim0 ∧ y0 ≤ y ∧ y < y0 + B.dim1 ∧
      x0 ≤ x ∧ x < x0 + B.dim2) :
    (A.assignAt z0 y0 x0 B).val z y x = B.val (z - z0) (y - y0) (x - x0) := by
  simp only [Array3.assignAt]
  rw [if_pos h]

theorem Array3.assignAt_val_of_not_mem {A B : Array3} {z0 y0 x0 z y x : Nat}
    (h : ¬(z0 ≤ z ∧ z < z0 + B.dim0 ∧ y0 ≤ y ∧ y < y0 + B.dim1 ∧
      x0 ≤ x ∧ x < x0 + B.dim2)) :
    (A.assignAt z0 y0 x0 B).val z y x = A.val z y x := by
  simp only [Array3.assignAt]
  rw [if_neg h]

theorem Store.write_self (st : Store) (k : BlockKey) (v : Bytes) :
    st.write k v k = some v := by
  simp [Store.write]

theorem Store.write_ne (st : Store) {k q : BlockKey} (v : Bytes) (h : q ≠ k) :
    st.write k v q = st q := by
  simp [Store.write, h]

/-- The global window of an entry of the decomposition, per axis: the
local start maps back to `max (S·i) start` and the local stop to
`min (S·(i+1)) stop`. -/
theorem entry_facts {s t S : Vector3} {e : Vector3 × Vector3 × Vector3}
    (hx : 0 < S.x) (hy : 0 < S.y) (hz : 0 < S.z)
    (he : e ∈ get_cuboids_and_indices s t S) :
    (S.x * e.1.x + e.2.1.x = max (S.x * e.1.x) s.x ∧
      S.x * e.1.x + e.2.2.x = min (S.x * (e.1.x + 1)) t.x) ∧
    (S.y * e.1.y + e.2.1.y = max (S.y * e.1.y) s.y ∧
      S.y * e.1.y + e.2.2.y = min (S.y * (e.1.y + 1)) t.y) ∧
    (S.z * e.1.z + e.2.1.z = max (S.z * e.1.z) s.z ∧
      S.z * e.1.z + e.2.2.z = min (S.z * (e.1.z + 1)) t.z) := by
  rw [mem_get_cuboids_and_indices] at he
  obtain ⟨⟨hx1, hx2⟩, ⟨hy1, hy2⟩, ⟨hz1, hz2⟩, ha, hb⟩ := he
  rw [ha, hb]
  exact ⟨⟨localStartAxis_add hx hx1, localStopAxis_add hx hx2⟩,
    ⟨localStartAxis_add hy hy1, localStopAxis_add hy hy2⟩,
    ⟨localStartAxis_add hz hz1, localStopAxis_add hz hz2⟩⟩

theorem nodup_cuboidRange (a b : Nat) : (cuboidRange a b).Nodup :=
  (List.nodup_range _).map (fun m n h => by omega)

/-- The decomposition lists each cuboid index exactly once. -/
theorem nodup_get_cuboids_and_indices (s t S : Vector3) :
    (get_cuboids_and_indices s t S).Nodup := by
  unfold get_cuboids_and_indices
  rw [List.nodup_flatMap]
  refine ⟨fun ix _ => ?_, ?_⟩
  · rw [List.nodup_flatMap]
    refine ⟨fun iy _ => ?_, ?_⟩
    · refine List.Nodup.map ?_ (nodup_cuboidRange _ _)
      intro iz₁ iz₂ h
      have := congrArg (fun e => e.1.z) h
      simpa using this
    · refine (nodup_cuboidRange _ _).pairwise_of_forall_ne fun iy₁ _ iy₂ _ hne => ?_
      simp only [Function.onFun]
      intro q hq₁ hq₂
      simp only [List.mem_map] at hq₁ hq₂
      obtain ⟨iz₁, _, rfl⟩ := hq₁
      obtain ⟨iz₂, _, h₂⟩ := hq₂
      have h₃ : iy₂ = iy₁ := by simpa using congrArg (fun e => e.1.y) h₂
      exact hne h₃.symm
  · refine (nodup_cuboidRange _ _).pairwise_of_forall_ne fun ix₁ _ ix₂ _ hne => ?_
    simp only [Function.onFun]
    intro q hq₁ hq₂
    simp only [List.mem_flatMap, List.mem_map] at hq₁ hq₂
    obtain ⟨iy₁, _, iz₁, _, rfl⟩ := hq₁
    obtain ⟨iy₂, _, iz₂, _, h₂⟩ := hq₂
    have h₃ : ix₂ = ix₁ := by simpa using congrArg (fun e => e.1.x) h₂
    exact hne h₃.symm

/-- Split a duplicate-free list at a member. -/
theorem mem_split_nodup {α : Type} {l : List α} {e : α} (hn : l.Nodup)
    (he : e ∈ l) : ∃ l₁ l₂, l = l₁ ++ e :: l₂ ∧ e ∉ l₁ ∧ e ∉ l₂ := by
  obtain ⟨l₁, l₂, rfl⟩ := List.append_of_mem he
  rw [List.nodup_append] at hn
  obtain ⟨_, hcons, hdisj⟩ := hn
  rw [List.nodup_cons] at hcons
  exact ⟨l₁, l₂, rfl, fun hmem => hdisj hmem (List.mem_cons_self _ _), hcons.1⟩

/-- Per-axis linear consequences of an entry's window equations. -/
theorem axis_window_facts {s t S i a b : Nat} (hS : 0 < S) (hst : s ≤ t)
    (hi1 : s / S ≤ i) (hi2 : i ≤ t / S)
    (hea : S * i + a = max (S * i) s) (heb : S * i + b = min (S * (i + 1)) t) :
    s ≤ S * i + a ∧ a ≤ b ∧ S * i + b ≤ t := by
  have hexp : S * (i + 1) = S * i + S := by ring
  have h1 : s < S * (i + 1) := by
    have hdm : S * (s / S) + s % S = s := Nat.div_add_mod s S
    have hmod : s % S < S := Nat.mod_lt _ hS
    have hmono : S * (s / S) ≤ S * i := Nat.mul_le_mul_left _ hi1
    omega
  have h2 : S * i ≤ t := by
    have hmono : S * i ≤ S * (t / S) := Nat.mul_le_mul_left _ hi2
    have hle : t / S * S ≤ t := Nat.div_mul_le_self t S
    have hc : S * (t / S) = t / S * S := Nat.mul_comm _ _
    omega
  refine ⟨by rw [hea]; exact le_max_right _ _, ?_, by rw [heb]; exact min_le_right _ _⟩
  have hmaxle : max (S * i) s ≤ min (S * (i + 1)) t :=
    max_le (le_min (by omega) h2) (le_min (le_of_lt h1) hst)
  omega

/-- The linear facts about an entry's window needed by the data-manager
proofs: on each axis the global window start is at or after the request
start, the local window is ordered, and the global window stop is at or
before the request stop. -/
theorem entry_window_facts {s t S : Vector3} {e : Vector3 × Vector3 × Vector3}
    (hx : 0 < S.x) (hy : 0 < S.y) (hz : 0 < S.z)
    (hst : s.x ≤ t.x ∧ s.y ≤ t.y ∧ s.z ≤ t.z)
    (he : e ∈ get_cuboids_and_indices s t S) :
    (s.x ≤ S.x * e.1.x + e.2.1.x ∧ e.2.1.x ≤ e.2.2.x ∧
      S.x * e.1.x + e.2.2.x ≤ t.x) ∧
    (s.y ≤ S.y * e.1.y + e.2.1.y ∧ e.2.1.y ≤ e.2.2.y ∧
      S.y * e.1.y + e.2.2.y ≤ t.y) ∧
    (s.z ≤ S.z * e.1.z + e.2.1.z ∧ e.2.1.z ≤ e.2.2.z ∧
      S.z * e.1.z + e.2.2.z ≤ t.z) := by
  have hmem := he
  rw [mem_get_cuboids_and_indices] at hmem
  obtain ⟨⟨hx1, hx2⟩, ⟨hy1, hy2⟩, ⟨hz1, hz2⟩, _, _⟩ := hmem
  obtain ⟨⟨hex1, hex2⟩, ⟨hey1, hey2⟩, ⟨hez1, hez2⟩⟩ := entry_facts hx hy hz he
  exact ⟨axis_window_facts hx hst.1 hx1 hx2 hex1 hex2,
    axis_window_facts hy hst.2.1 hy1 hy2 hey1 hey2,
    axis_window_facts hz hst.2.2 hz1 hz2 hez1 hez2⟩

/-- The local window bounds of an entry never exceed the cuboid size. -/
theorem entry_bounds {s t S : Vector3} {e : Vector3 × Vector3 × Vector3}
    (hx : 0 < S.x) (hy : 0 < S.y) (hz : 0 < S.z)
    (he : e ∈ get_cuboids_and_indices s t S) :
    e.2.1.x ≤ S.x ∧ e.2.1.y ≤ S.y ∧ e.2.1.z ≤ S.z ∧
    e.2.2.x ≤ S.x ∧ e.2.2.y ≤ S.y ∧ e.2.2.z ≤ S.z := by
  rw [mem_get_cuboids_and_indices] at he
  obtain ⟨_, _, _, ha, hb⟩ := he
  rw [ha, hb]
  exact ⟨localStartAxis_le hx, localStartAxis_le hy, localStartAxis_le hz,
    localStopAxis_le hx, localStopAxis_le hy, localStopAxis_le hz⟩

theorem foldOpt_append {σ α : Type} (f : σ → α → Option σ) (l₁ l₂ : List α)
    (st : σ) :
    foldOpt f st (l₁ ++ l₂) = (foldOpt f st l₁).bind fun st₁ => foldOpt f st₁ l₂ := by
  induction l₁ generalizing st with
  | nil => simp [foldOpt]
  | cons a l ih =>
    simp only [List.cons_append, foldOpt]
    cases f st a with
    | none => simp
    | some st' => simp [ih]

namespace ChunkedFileDataManager

theorem putStep_eq (m : ChunkedFileDataManager) (channel : String) (res : Nat)
    (origin : Vector3) (data : Array3) (st : Store)
    (e : Vector3 × Vector3 × Vector3) :
    putStep m channel res origin data st e =
      match readBlockForPut m.cuboid_size (st ⟨channel, res, e.1⟩) with
      | none => none
      | some array =>
        some (st.write ⟨channel, res, e.1⟩
          (putMerge m.cuboid_size origin data e array).into_raw_vec) := rfl

theorem readBlockForPut_dims {S : Vector3} {file : Option Bytes} {array : Array3}
    (h : readBlockForPut S file = some array) :
    array.dim0 = S.z ∧ array.dim1 = S.y ∧ array.dim2 = S.x := by
  unfold readBlockForPut at h
  split at h
  · split at h
    · obtain ⟨_, rfl⟩ := from_shape_vec_inv h
      exact ⟨rfl, rfl, rfl⟩
    · cases h
      exact ⟨rfl, rfl, rfl⟩
  · cases h
    exact ⟨rfl, rfl, rfl⟩

theorem putMerge_dims (S origin : Vector3) (data : Array3)
    (e : Vector3 × Vector3 × Vector3) (array : Array3) :
    (putMerge S origin data e array).dim0 = array.dim0 ∧
    (putMerge S origin data e array).dim1 = array.dim1 ∧
    (putMerge S origin data e array).dim2 = array.dim2 :=
  ⟨rfl, rfl, rfl⟩

/-- Characterisation of the `put_data` loop: every processed entry's
block file ends up holding the flattening of a merge of the input into
some `(Sz, Sy, Sx)` base array, and files whose key is not touched are
unchanged.  The entries are assumed to come from a single decomposition
(so equal indices force equal entries). -/
theorem foldOpt_putStep_char {m : ChunkedFileDataManager} {channel : String}
    {res : Nat} {origin : Vector3} {data : Array3} {s t : Vector3}
    {l : List (Vector3 × Vector3 × Vector3)} {st st' : Store}
    (hl : ∀ e ∈ l, e ∈ get_cuboids_and_indices s t m.cuboid_size)
    (h : foldOpt (putStep m channel res origin data) st l = some st') :
    (∀ k : BlockKey, (∀ e ∈ l, k ≠ ⟨channel, res, e.1⟩) → st' k = st k) ∧
    (∀ e ∈ l, ∃ array : Array3,
      array.dim0 = m.cuboid_size.z ∧ array.dim1 = m.cuboid_size.y ∧
      array.dim2 = m.cuboid_size.x ∧
      st' ⟨channel, res, e.1⟩ =
        some ((putMerge m.cuboid_size origin data e array).into_raw_vec)) := by
  induction l generalizing st with
  | nil =>
    simp only [foldOpt, Option.some.injEq] at h
    subst h
    exact ⟨fun _ _ => rfl, by simp⟩
  | cons e₀ l ih =>
    simp only [foldOpt, putStep_eq] at h
    cases hr : readBlockForPut m.cuboid_size (st ⟨channel, res, e₀.1⟩) with
    | none => rw [hr] at h; cases h
    | some array =>
      rw [hr] at h
      simp only at h
      obtain ⟨ihpres, ihmem⟩ :=
        ih (fun e he => hl e (List.mem_cons_of_mem _ he)) h
      obtain ⟨hd0, hd1, hd2⟩ := readBlockForPut_dims hr
      refine ⟨?_, ?_⟩
      · intro k hk
        rw [ihpres k (fun e he => hk e (List.mem_cons_of_mem _ he)),
          Store.write_ne _ _ (hk e₀ (List.mem_cons_self _ _))]
      · intro e he
        rcases List.mem_cons.mp he with rfl | he'
        · by_cases hdup : ∃ e' ∈ l, (⟨channel, res, e'.1⟩ : BlockKey) =
              ⟨channel, res, e.1⟩
          · obtain ⟨e', he', hkey⟩ := hdup
            have hidx : e'.1 = e.1 := by
              simpa [BlockKey.mk.injEq] using hkey
            have heq : e' = e := get_cuboids_eq_of_index_eq
              (hl e' (List.mem_cons_of_mem _ he'))
              (hl e (List.mem_cons_self _ _)) hidx
            exact ihmem e (heq ▸ he')
          · push_neg at hdup
            have hpres : st' ⟨channel, res, e.1⟩ =
                (st.write ⟨channel, res, e.1⟩
                  (putMerge m.cuboid_size origin data e array).into_raw_vec)
                  ⟨channel, res, e.1⟩ :=
              ihpres _ (fun e' he' => (hdup e' he').symm)
            rw [hpres, Store.write_self]
            exact ⟨array, hd0, hd1, hd2, rfl⟩
        · exact ihmem e he'

/-- The value written by `put_data` inside an entry's local window is the
corresponding input voxel. -/
theorem putMerge_val {S origin : Vector3} {data : Array3} {t : Vector3}
    {e : Vector3 × Vector3 × Vector3} {array : Array3}
    (hx : 0 < S.x) (hy : 0 < S.y) (hz : 0 < S.z)
    (hst : origin.x ≤ t.x ∧ origin.y ≤ t.y ∧ origin.z ≤ t.z)
    (he : e ∈ get_cuboids_and_indices origin t S)
    (hd0 : array.dim0 = S.z) (hd1 : array.dim1 = S.y) (hd2 : array.dim2 = S.x)
    {lz ly lx : Nat}
    (hlz : e.2.1.z ≤ lz ∧ lz < e.2.2.z) (hly : e.2.1.y ≤ ly ∧ ly < e.2.2.y)
    (hlx : e.2.1.x ≤ lx ∧ lx < e.2.2.x) :
    (putMerge S origin data e array).val lz ly lx =
      data.val (e.1.z * S.z + lz - origin.z) (e.1.y * S.y + ly - origin.y)
        (e.1.x * S.x + lx - origin.x) := by
  obtain ⟨⟨hwx1, hwx2, hwx3⟩, ⟨hwy1, hwy2, hwy3⟩, ⟨hwz1, hwz2, hwz3⟩⟩ :=
    entry_window_facts hx hy hz hst he
  have hcx : e.1.x * S.x = S.x * e.1.x := Nat.mul_comm _ _
  have hcy : e.1.y * S.y = S.y * e.1.y := Nat.mul_comm _ _
  have hcz : e.1.z * S.z = S.z * e.1.z := Nat.mul_comm _ _
  unfold putMerge
  rw [Array3.assignAt_val_of_mem]
  · show data.val ((e.1.z * S.z + e.2.1.z - origin.z) + (lz - e.2.1.z)) _ _ = _
    have i1 : (e.1.z * S.z + e.2.1.z - origin.z) + (lz - e.2.1.z) =
        e.1.z * S.z + lz - origin.z := by omega
    have i2 : (e.1.y * S.y + e.2.1.y - origin.y) + (ly - e.2.1.y) =
        e.1.y * S.y + ly - origin.y := by omega
    have i3 : (e.1.x * S.x + e.2.1.x - origin.x) + (lx - e.2.1.x) =
        e.1.x * S.x + lx - origin.x := by omega
    rw [i1, i2, i3]
  · show e.2.1.z ≤ lz ∧
      lz < e.2.1.z + ((e.1.z * S.z + e.2.2.z - origin.z) -
        (e.1.z * S.z + e.2.1.z - origin.z)) ∧
      e.2.1.y ≤ ly ∧
      ly < e.2.1.y + ((e.1.y * S.y + e.2.2.y - origin.y) -
        (e.1.y * S.y + e.2.1.y - origin.y)) ∧
      e.2.1.x ≤ lx ∧
      lx < e.2.1.x + ((e.1.x * S.x + e.2.2.x - origin.x) -
        (e.1.x * S.x + e.2.1.x - origin.x))
    omega

theorem getStep_eq (m : ChunkedFileDataManager) (next : NextLayer)
    (uri channel : String) (res : Nat) (origin : Vector3) (st : GetState)
    (e : Vector3 × Vector3 × Vector3) :
    getStep m next uri channel res origin st e =
      match st.store ⟨channel, res, e.1⟩ with
      | some d =>
        match Array3.from_shape_vec m.cuboid_size.z m.cuboid_size.y
            m.cuboid_size.x d with
        | none => none
        | some array =>
          some ⟨copyOut m.cuboid_size origin e array st.large, st.store,
            st.upcalls,
            if m.track_usage then st.events ++ [⟨channel, res, e.1⟩]
              else st.events⟩
      | none =>
        match put_data m uri res (cuboidOriginOf m.cuboid_size e.1)
            (next channel res (cuboidOriginOf m.cuboid_size e.1)
              (cuboidStopOf m.cuboid_size e.1)) st.store with
        | none => none
        | some (st2, _) =>
          some ⟨copyOut m.cuboid_size origin e
              (next channel res (cuboidOriginOf m.cuboid_size e.1)
                (cuboidStopOf m.cuboid_size e.1)) st.large,
            st2,
            st.upcalls ++ [(channel, res, cuboidOriginOf m.cuboid_size e.1,
              cuboidStopOf m.cuboid_size e.1)],
            if m.track_usage then st.events ++ [⟨channel, res, e.1⟩]
              else st.events⟩ := rfl

theorem copyOut_dims (S origin : Vector3) (e : Vector3 × Vector3 × Vector3)
    (array large : Array3) :
    (copyOut S origin e array large).dim0 = large.dim0 ∧
    (copyOut S origin e array large).dim1 = large.dim1 ∧
    (copyOut S origin e array large).dim2 = large.dim2 :=
  ⟨rfl, rfl, rfl⟩

/-- The region of the output buffer written for an entry is exactly the
set of (request-relative) points the entry covers. -/
theorem copyOut_region_iff {t S origin : Vector3}
    {e : Vector3 × Vector3 × Vector3}
    (hx : 0 < S.x) (hy : 0 < S.y) (hz : 0 < S.z)
    (hst : origin.x ≤ t.x ∧ origin.y ≤ t.y ∧ origin.z ≤ t.z)
    (he : e ∈ get_cuboids_and_indices origin t S) (p : Vector3) :
    ((e.1.z * S.z + e.2.1.z - origin.z ≤ p.z ∧
        p.z < (e.1.z * S.z + e.2.1.z - origin.z) + (e.2.2.z - e.2.1.z)) ∧
      (e.1.y * S.y + e.2.1.y - origin.y ≤ p.y ∧
        p.y < (e.1.y * S.y + e.2.1.y - origin.y) + (e.2.2.y - e.2.1.y)) ∧
      (e.1.x * S.x + e.2.1.x - origin.x ≤ p.x ∧
        p.x < (e.1.x * S.x + e.2.1.x - origin.x) + (e.2.2.x - e.2.1.x))) ↔
      coversPoint S e ⟨origin.x + p.x, origin.y + p.y, origin.z + p.z⟩ := by
  obtain ⟨⟨hwx1, hwx2, hwx3⟩, ⟨hwy1, hwy2, hwy3⟩, ⟨hwz1, hwz2, hwz3⟩⟩ :=
    entry_window_facts hx hy hz hst he
  have hcx : e.1.x * S.x = S.x * e.1.x := Nat.mul_comm _ _
  have hcy : e.1.y * S.y = S.y * e.1.y := Nat.mul_comm _ _
  have hcz : e.1.z * S.z = S.z * e.1.z := Nat.mul_comm _ _
  unfold coversPoint
  simp only
  omega

/-- Characterisation of an all-hit `get_data` run: if every processed
entry's block file is present with the exact block byte count, the loop
succeeds without touching the store or the next layer, and the final
output buffer holds, at every point covered by an entry, the decoded
stored byte of that entry's block (and is untouched elsewhere). -/
theorem foldOpt_getStep_allhit {m : ChunkedFileDataManager} {next : NextLayer}
    {uri channel : String} {res : Nat} {origin : Vector3} {t : Vector3}
    {l : List (Vector3 × Vector3 × Vector3)} {g0 : GetState}
    (hx : 0 < m.cuboid_size.x) (hy : 0 < m.cuboid_size.y)
    (hz : 0 < m.cuboid_size.z)
    (hst : origin.x ≤ t.x ∧ origin.y ≤ t.y ∧ origin.z ≤ t.z)
    (hl : ∀ e ∈ l, e ∈ get_cuboids_and_indices origin t m.cuboid_size)
    (hhit : ∀ e ∈ l, ∃ d, g0.store ⟨channel, res, e.1⟩ = some d ∧
      d.length = m.cuboid_size.z * (m.cuboid_size.y * m.cuboid_size.x)) :
    ∃ g, foldOpt (getStep m next uri channel res origin) g0 l = some g ∧
      g.store = g0.store ∧ g.upcalls = g0.upcalls ∧
      g.large.dim0 = g0.large.dim0 ∧ g.large.dim1 = g0.large.dim1 ∧
      g.large.dim2 = g0.large.dim2 ∧
      (∀ p : Vector3,
        (∀ e ∈ l, ¬coversPoint m.cuboid_size e
          ⟨origin.x + p.x, origin.y + p.y, origin.z + p.z⟩) →
        g.large.val p.z p.y p.x = g0.large.val p.z p.y p.x) ∧
      (∀ e ∈ l, ∀ d, g0.store ⟨channel, res, e.1⟩ = some d →
        ∀ p : Vector3, coversPoint m.cuboid_size e
          ⟨origin.x + p.x, origin.y + p.y, origin.z + p.z⟩ →
        g.large.val p.z p.y p.x =
          decodeVal m.cuboid_size d (origin.z + p.z - e.1.z * m.cuboid_size.z)
            (origin.y + p.y - e.1.y * m.cuboid_size.y)
            (origin.x + p.x - e.1.x * m.cuboid_size.x)) := by
  induction l generalizing g0 with
  | nil =>
    exact ⟨g0, rfl, rfl, rfl, rfl, rfl, rfl, fun _ _ => rfl, by simp⟩
  | cons e₀ l ih =>
    obtain ⟨d₀, hd₀, hlen₀⟩ := hhit e₀ (List.mem_cons_self _ _)
    have harr := from_shape_vec_eq_some hlen₀
    set S := m.cuboid_size with hS
    set array : Array3 :=
      ⟨S.z, S.y, S.x, fun z y x => d₀.getD (z * (S.y * S.x) + y * S.x + x) 0⟩
      with harrdef
    set g₁ : GetState :=
      ⟨copyOut S origin e₀ array g0.large, g0.store, g0.upcalls,
        if m.track_usage then g0.events ++ [⟨channel, res, e₀.1⟩]
          else g0.events⟩ with hg₁
    have hstep : foldOpt (getStep m next uri channel res origin) g0 (e₀ :: l) =
        foldOpt (getStep m next uri channel res origin) g₁ l := by
      simp only [foldOpt, getStep_eq, hd₀, harr]
    obtain ⟨g, hfold, hgs, hgu, hgd0, hgd1, hgd2, huntouched, hcovered⟩ :=
      ih (fun e he => hl e (List.mem_cons_of_mem _ he))
        (fun e he =>
          show ∃ d, g₁.store ⟨channel, res, e.1⟩ = some d ∧
              d.length = m.cuboid_size.z * (m.cuboid_size.y * m.cuboid_size.x)
            from hhit e (List.mem_cons_of_mem _ he))
    refine ⟨g, by rw [hstep]; exact hfold, hgs, hgu, ?_, ?_, ?_, ?_, ?_⟩
    · rw [hgd0]; rfl
    · rw [hgd1]; rfl
    · rw [hgd2]; rfl
    · intro p hnc
      rw [huntouched p (fun e he => hnc e (List.mem_cons_of_mem _ he))]
      show (copyOut S origin e₀ array g0.large).val p.z p.y p.x =
        g0.large.val p.z p.y p.x
      unfold copyOut
      rw [Array3.assignAt_val_of_not_mem]
      intro hreg
      exact hnc e₀ (List.mem_cons_self _ _)
        ((copyOut_region_iff hx hy hz hst (hl e₀ (List.mem_cons_self _ _)) p).mp
          (by exact ⟨⟨hreg.1, hreg.2.1⟩, ⟨hreg.2.2.1, hreg.2.2.2.1⟩,
            ⟨hreg.2.2.2.2.1, hreg.2.2.2.2.2⟩⟩))
    · intro e he d hd p hcov
      by_cases hc : ∃ e' ∈ l, coversPoint S e'
          ⟨origin.x + p.x, origin.y + p.y, origin.z + p.z⟩
      · obtain ⟨e', he', hcov'⟩ := hc
        have heq : e' = e := coversPoint_unique hx hy hz
          (hl e' (List.mem_cons_of_mem _ he')) (hl e he) hcov' hcov
        exact hcovered e (heq ▸ he') d hd p hcov
      · push_neg at hc
        have he₀ : e = e₀ := by
          rcases List.mem_cons.mp he with h | h
          · exact h
          · exact absurd hcov (hc e h)
        subst he₀
        have hd' : d = d₀ := by
          rw [hd] at hd₀
          exact (Option.some.injEq _ _ ▸ hd₀).symm ▸ rfl
        rw [huntouched p hc]
        show (copyOut S origin e array g0.large).val p.z p.y p.x = _
        unfold copyOut
        have hreg := (copyOut_region_iff hx hy hz hst (hl e (List.mem_cons_self _ _)) p).mpr hcov
        rw [Array3.assignAt_val_of_mem
          (by exact ⟨hreg.1.1, hreg.1.2, hreg.2.1.1, hreg.2.1.2,
            hreg.2.2.1, hreg.2.2.2⟩)]
        obtain ⟨⟨hwx1, hwx2, hwx3⟩, ⟨hwy1, hwy2, hwy3⟩, ⟨hwz1, hwz2, hwz3⟩⟩ :=
          entry_window_facts hx hy hz hst (hl e (List.mem_cons_self _ _))
        obtain ⟨⟨hqx1, hqx2⟩, ⟨hqy1, hqy2⟩, ⟨hqz1, hqz2⟩⟩ := hcov
        have hcx : e.1.x * S.x = S.x * e.1.x := Nat.mul_comm _ _
        have hcy : e.1.y * S.y = S.y * e.1.y := Nat.mul_comm _ _
        have hcz : e.1.z * S.z = S.z * e.1.z := Nat.mul_comm _ _
        show array.val (e.2.1.z + (p.z - (e.1.z * S.z + e.2.1.z - origin.z)))
            (e.2.1.y + (p.y - (e.1.y * S.y + e.2.1.y - origin.y)))
            (e.2.1.x + (p.x - (e.1.x * S.x + e.2.1.x - origin.x))) = _
        have i1 : e.2.1.z + (p.z - (e.1.z * S.z + e.2.1.z - origin.z)) =
            origin.z + p.z - e.1.z * S.z := by omega
        have i2 : e.2.1.y + (p.y - (e.1.y * S.y + e.2.1.y - origin.y)) =
            origin.y + p.y - e.1.y * S.y := by omega
        have i3 : e.2.1.x + (p.x - (e.1.x * S.x + e.2.1.x - origin.x)) =
            origin.x + p.x - e.1.x * S.x := by omega
        rw [i1, i2, i3, hd']
        rfl

/-- The output-buffer voxel written for a covered point is the block
array's voxel at the point's block-local coordinate. -/
theorem copyOut_val_covered {t S origin : Vector3}
    {e : Vector3 × Vector3 × Vector3}
    (hx : 0 < S.x) (hy : 0 < S.y) (hz : 0 < S.z)
    (hst : origin.x ≤ t.x ∧ origin.y ≤ t.y ∧ origin.z ≤ t.z)
    (he : e ∈ get_cuboids_and_indices origin t S) {array large : Array3}
    {p : Vector3}
    (hcov : coversPoint S e ⟨origin.x + p.x, origin.y + p.y, origin.z + p.z⟩) :
    (copyOut S origin e array large).val p.z p.y p.x =
      array.val (origin.z + p.z - e.1.z * S.z) (origin.y + p.y - e.1.y * S.y)
        (origin.x + p.x - e.1.x * S.x) := by
  have hreg := (copyOut_region_iff hx hy hz hst he p).mpr hcov
  obtain ⟨⟨hwx1, hwx2, hwx3⟩, ⟨hwy1, hwy2, hwy3⟩, ⟨hwz1, hwz2, hwz3⟩⟩ :=
    entry_window_facts hx hy hz hst he
  obtain ⟨⟨hqx1, hqx2⟩, ⟨hqy1, hqy2⟩, ⟨hqz1, hqz2⟩⟩ := hcov
  simp only at hqx1 hqx2 hqy1 hqy2 hqz1 hqz2
  have hcx : e.1.x * S.x = S.x * e.1.x := Nat.mul_comm _ _
  have hcy : e.1.y * S.y = S.y * e.1.y := Nat.mul_comm _ _
  have hcz : e.1.z * S.z = S.z * e.1.z := Nat.mul_comm _ _
  unfold copyOut
  rw [Array3.assignAt_val_of_mem
    (by exact ⟨hreg.1.1, hreg.1.2, hreg.2.1.1, hreg.2.1.2,
      hreg.2.2.1, hreg.2.2.2⟩)]
  show array.val (e.2.1.z + (p.z - (e.1.z * S.z + e.2.1.z - origin.z)))
      (e.2.1.y + (p.y - (e.1.y * S.y + e.2.1.y - origin.y)))
      (e.2.1.x + (p.x - (e.1.x * S.x + e.2.1.x - origin.x))) = _
  have i1 : e.2.1.z + (p.z - (e.1.z * S.z + e.2.1.z - origin.z)) =
      origin.z + p.z - e.1.z * S.z := by omega
  have i2 : e.2.1.y + (p.y - (e.1.y * S.y + e.2.1.y - origin.y)) =
      origin.y + p.y - e.1.y * S.y := by omega
  have i3 : e.2.1.x + (p.x - (e.1.x * S.x + e.2.1.x - origin.x)) =
      origin.x + p.x - e.1.x * S.x := by omega
  rw [i1, i2, i3]

/-- Points an entry does not cover are untouched by its copy into the
output buffer. -/
theorem copyOut_val_not_covered {t S origin : Vector3}
    {e : Vector3 × Vector3 × Vector3}
    (hx : 0 < S.x) (hy : 0 < S.y) (hz : 0 < S.z)
    (hst : origin.x ≤ t.x ∧ origin.y ≤ t.y ∧ origin.z ≤ t.z)
    (he : e ∈ get_cuboids_and_indices origin t S) {array large : Array3}
    {p : Vector3}
    (hnc : ¬coversPoint S e ⟨origin.x + p.x, origin.y + p.y, origin.z + p.z⟩) :
    (copyOut S origin e array large).val p.z p.y p.x =
      large.val p.z p.y p.x := by
  unfold copyOut
  rw [Array3.assignAt_val_of_not_mem]
  intro hreg
  exact hnc ((copyOut_region_iff hx hy hz hst he p).mp
    ⟨⟨hreg.1, hreg.2.1⟩, ⟨hreg.2.2.1, hreg.2.2.2.1⟩,
      ⟨hreg.2.2.2.2.1, hreg.2.2.2.2.2⟩⟩)

/-- The decomposition of a full cuboid-aligned region contains the full
window of the cuboid itself (localStart `0`, localStop `S`). -/
theorem full_block_entry {S I : Vector3} (hx : 0 < S.x) (hy : 0 < S.y)
    (hz : 0 < S.z) :
    ((I, (⟨0, 0, 0⟩ : Vector3), S) : Vector3 × Vector3 × Vector3) ∈
      get_cuboids_and_indices (cuboidOriginOf S I)
        ⟨(cuboidOriginOf S I).x + S.x, (cuboidOriginOf S I).y + S.y,
          (cuboidOriginOf S I).z + S.z⟩ S := by
  rw [mem_get_cuboids_and_indices]
  have dx : I.x * S.x / S.x = I.x := Nat.mul_div_cancel I.x hx
  have dy : I.y * S.y / S.y = I.y := Nat.mul_div_cancel I.y hy
  have dz : I.z * S.z / S.z = I.z := Nat.mul_div_cancel I.z hz
  have dx2 : (I.x * S.x + S.x) / S.x = I.x + 1 := by
    have h : I.x * S.x + S.x = (I.x + 1) * S.x := by ring
    rw [h, Nat.mul_div_cancel _ hx]
  have dy2 : (I.y * S.y + S.y) / S.y = I.y + 1 := by
    have h : I.y * S.y + S.y = (I.y + 1) * S.y := by ring
    rw [h, Nat.mul_div_cancel _ hy]
  have dz2 : (I.z * S.z + S.z) / S.z = I.z + 1 := by
    have h : I.z * S.z + S.z = (I.z + 1) * S.z := by ring
    rw [h, Nat.mul_div_cancel _ hz]
  refine ⟨⟨?_, ?_⟩, ⟨?_, ?_⟩, ⟨?_, ?_⟩, ?_, ?_⟩
  · show I.x * S.x / S.x ≤ I.x
    rw [dx]
  · show I.x ≤ (I.x * S.x + S.x) / S.x
    rw [dx2]; omega
  · show I.y * S.y / S.y ≤ I.y
    rw [dy]
  · show I.y ≤ (I.y * S.y + S.y) / S.y
    rw [dy2]; omega
  · show I.z * S.z / S.z ≤ I.z
    rw [dz]
  · show I.z ≤ (I.z * S.z + S.z) / S.z
    rw [dz2]; omega
  · show (⟨0, 0, 0⟩ : Vector3) = startCoordsOf (cuboidOriginOf S I) S I
    unfold startCoordsOf localStartAxis cuboidOriginOf
    simp only
    rw [if_pos (le_of_eq (Nat.mul_comm I.x S.x)),
      if_pos (le_of_eq (Nat.mul_comm I.y S.y)),
      if_pos (le_of_eq (Nat.mul_comm I.z S.z))]
  · show S = stopCoordsOf ⟨I.x * S.x + S.x, I.y * S.y + S.y, I.z * S.z + S.z⟩ S I
    unfold stopCoordsOf localStopAxis
    simp only
    rw [if_pos (le_of_eq (by ring)), if_pos (le_of_eq (by ring)),
      if_pos (le_of_eq (by ring))]

/-- On a well-formed store (every present block file holds exactly the
block byte count), every `put_data` loop iteration succeeds, and the
store stays well-formed; present files stay present. -/
theorem foldOpt_putStep_some {m : ChunkedFileDataManager} {channel : String}
    {res : Nat} {origin : Vector3} {data : Array3}
    {l : List (Vector3 × Vector3 × Vector3)} {st : Store}
    (hpos : 0 < m.cuboid_size.z * (m.cuboid_size.y * m.cuboid_size.x))
    (hwf : ∀ k d, st k = some d →
      d.length = m.cuboid_size.z * (m.cuboid_size.y * m.cuboid_size.x)) :
    ∃ st', foldOpt (putStep m channel res origin data) st l = some st' ∧
      (∀ k d, st' k = some d →
        d.length = m.cuboid_size.z * (m.cuboid_size.y * m.cuboid_size.x)) ∧
      (∀ k d, st k = some d → ∃ d', st' k = some d') := by
  induction l generalizing st with
  | nil => exact ⟨st, rfl, hwf, fun k d h => ⟨d, h⟩⟩
  | cons e₀ l ih =>
    set S := m.cuboid_size with hS
    have hread : ∃ array, readBlockForPut S (st ⟨channel, res, e₀.1⟩) =
        some array := by
      cases hk : st ⟨channel, res, e₀.1⟩ with
      | none => exact ⟨_, rfl⟩
      | some d =>
        have hlen := hwf _ _ hk
        by_cases hnz : 0 < d.length
        · refine ⟨⟨S.z, S.y, S.x,
            fun z y x => d.getD (z * (S.y * S.x) + y * S.x + x) 0⟩, ?_⟩
          show (if 0 < d.length then Array3.from_shape_vec S.z S.y S.x d
            else some (Array3.zeros S.z S.y S.x)) = _
          rw [if_pos hnz]
          exact from_shape_vec_eq_some hlen
        · refine ⟨Array3.zeros S.z S.y S.x, ?_⟩
          show (if 0 < d.length then Array3.from_shape_vec S.z S.y S.x d
            else some (Array3.zeros S.z S.y S.x)) = _
          rw [if_neg hnz]
    obtain ⟨array, harr⟩ := hread
    obtain ⟨ad0, ad1, ad2⟩ := readBlockForPut_dims harr
    set st₁ : Store := st.write ⟨channel, res, e₀.1⟩
      (putMerge S origin data e₀ array).into_raw_vec with hst₁
    have hwf₁ : ∀ k d, st₁ k = some d → d.length = S.z * (S.y * S.x) := by
      intro k d hk
      rw [hst₁] at hk
      unfold Store.write at hk
      split at hk
      · cases hk
        rw [Array3.length_into_raw_vec]
        obtain ⟨hm0, hm1, hm2⟩ := putMerge_dims S origin data e₀ array
        rw [hm0, hm1, hm2, ad0, ad1, ad2]
      · exact hwf _ _ hk
    obtain ⟨st', hfold, hwf', hpres'⟩ := ih hwf₁
    refine ⟨st', ?_, hwf', ?_⟩
    · simp only [foldOpt, putStep_eq, harr]
      exact hfold
    · intro k d hk
      by_cases hkey : k = ⟨channel, res, e₀.1⟩
      · refine hpres' k ((putMerge S origin data e₀ array).into_raw_vec) ?_
        rw [hst₁, hkey]
        exact Store.write_self _ _ _
      · refine hpres' k d ?_
        rw [hst₁, Store.write_ne _ _ hkey]
        exact hk

theorem put_data_eq {uri channel : String} (m : ChunkedFileDataManager)
    (res : Nat) (origin : Vector3) (data : Array3) (st : Store)
    (hch : uriChannel uri = some channel) :
    put_data m uri res origin data st =
      match foldOpt (putStep m channel res origin data) st
          (get_cuboids_and_indices origin
            ⟨origin.x + data.dim2, origin.y + data.dim1, origin.z + data.dim0⟩
            m.cuboid_size) with
      | none => none
      | some st' => some (st', true) := by
  unfold put_data
  rw [hch]

theorem get_data_eq {uri channel : String} (m : ChunkedFileDataManager)
    (next : NextLayer) (res : Nat) (origin destination : Vector3) (st : Store)
    (hch : uriChannel uri = some channel) :
    get_data m next uri res origin destination st =
      match foldOpt (getStep m next uri channel res origin)
          ⟨Array3.zeros (destination.z - origin.z) (destination.y - origin.y)
            (destination.x - origin.x), st, [], []⟩
          (get_cuboids_and_indices origin destination m.cuboid_size) with
      | none => none
      | some g => some (g.large, g.store, g.upcalls, g.events) := by
  unfold get_data
  rw [hch]

end ChunkedFileDataManager

open ChunkedFileDataManager in
/-- Claim C1: for every buffer `B`, origin `O`, channel URI with a scheme
prefix, and resolution, calling
`ChunkedFileDataManager::put_data(uri, res, O, B)` on any store state and
then `get_data(uri, res, O, O + shape(B))` returns `B` bit-for-bit,
provided there is no intervening write and no eviction (the sequential
put-then-get modelled here).  The store state is arbitrary; the
hypothesis `put_data = some out` states that the put completed (it
panics on a store holding a wrong-sized block file at a touched path). -/
theorem C1_round_trip (m : ChunkedFileDataManager) (next : NextLayer)
    (uri channel : String) (res : Nat) (origin : Vector3) (data : Array3)
    (st : Store) (out : Store × Bool)
    (hx : 0 < m.cuboid_size.x) (hy : 0 < m.cuboid_size.y)
    (hz : 0 < m.cuboid_size.z)
    (hch : uriChannel uri = some channel)
    (hput : put_data m uri res origin data st = some out) :
    ∃ r, get_data m next uri res origin
        ⟨origin.x + data.dim2, origin.y + data.dim1, origin.z + data.dim0⟩
        out.1 = some r ∧ r.1.equiv data := by
  rw [put_data_eq m res origin data st hch] at hput
  set S := m.cuboid_size with hSdef
  set T : Vector3 :=
    ⟨origin.x + data.dim2, origin.y + data.dim1, origin.z + data.dim0⟩ with hT
  revert hput
  cases hfold : foldOpt (putStep m channel res origin data) st
      (get_cuboids_and_indices origin T S) with
  | none => intro hput; cases hput
  | some st₁ =>
    intro hput
    simp only [Option.some.injEq] at hput
    have hout1 : out.1 = st₁ := by rw [← hput]
    have hst : origin.x ≤ T.x ∧ origin.y ≤ T.y ∧ origin.z ≤ T.z := by
      refine ⟨?_, ?_, ?_⟩ <;> simp [hT]
    obtain ⟨hpres, hmem⟩ := foldOpt_putStep_char (fun e he => he) hfold
    have hhit : ∀ e ∈ get_cuboids_and_indices origin T S,
        ∃ d, st₁ ⟨channel, res, e.1⟩ = some d ∧
          d.length = S.z * (S.y * S.x) := by
      intro e he
      obtain ⟨array, hd0, hd1, hd2, hval⟩ := hmem e he
      refine ⟨_, hval, ?_⟩
      rw [Array3.length_into_raw_vec]
      obtain ⟨hm0, hm1, hm2⟩ := putMerge_dims S origin data e array
      rw [hm0, hm1, hm2, hd0, hd1, hd2]
    obtain ⟨g, hgfold, hgs, hgu, hgd0, hgd1, hgd2, huntouched, hcovered⟩ :=
      @foldOpt_getStep_allhit m next uri channel res origin T
        (get_cuboids_and_indices origin T S)
        (GetState.mk (Array3.zeros (T.z - origin.z) (T.y - origin.y)
          (T.x - origin.x)) st₁ [] [])
        hx hy hz hst (fun e he => he) hhit
    refine ⟨(g.large, g.store, g.upcalls, g.events), ?_, ?_⟩
    · rw [get_data_eq m next res origin T out.1 hch, hout1, hgfold]
    · have hdim0 : g.large.dim0 = data.dim0 := by
        rw [hgd0]; show T.z - origin.z = data.dim0; simp [hT]
      have hdim1 : g.large.dim1 = data.dim1 := by
        rw [hgd1]; show T.y - origin.y = data.dim1; simp [hT]
      have hdim2 : g.large.dim2 = data.dim2 := by
        rw [hgd2]; show T.x - origin.x = data.dim2; simp [hT]
      refine ⟨hdim0, hdim1, hdim2, ?_⟩
      intro z hzb y hyb x hxb
      rw [hdim0] at hzb
      rw [hdim1] at hyb
      rw [hdim2] at hxb
      have hq : inBox origin T
          ⟨origin.x + x, origin.y + y, origin.z + z⟩ := by
        refine ⟨⟨?_, ?_⟩, ⟨?_, ?_⟩, ⟨?_, ?_⟩⟩ <;> simp [hT] <;> omega
      obtain ⟨e, he, _, hcov⟩ := exists_covering_entry hx hy hz hq
      obtain ⟨array, hd0, hd1, hd2, hval⟩ := hmem e he
      have hgl := hcovered e he _ hval ⟨x, y, z⟩ hcov
      show g.large.val z y x = data.val z y x
      rw [hgl]
      obtain ⟨⟨hqx1, hqx2⟩, ⟨hqy1, hqy2⟩, ⟨hqz1, hqz2⟩⟩ := hcov
      simp only at hqx1 hqx2 hqy1 hqy2 hqz1 hqz2
      obtain ⟨_, _, _, hbx, hby, hbz⟩ := entry_bounds hx hy hz he
      have hcx : e.1.x * S.x = S.x * e.1.x := Nat.mul_comm _ _
      have hcy : e.1.y * S.y = S.y * e.1.y := Nat.mul_comm _ _
      have hcz : e.1.z * S.z = S.z * e.1.z := Nat.mul_comm _ _
      obtain ⟨hm0, hm1, hm2⟩ := putMerge_dims S origin data e array
      have hdec : decodeVal S ((putMerge S origin data e array).into_raw_vec)
          (origin.z + z - e.1.z * S.z) (origin.y + y - e.1.y * S.y)
          (origin.x + x - e.1.x * S.x) =
          (putMerge S origin data e array).val (origin.z + z - e.1.z * S.z)
            (origin.y + y - e.1.y * S.y) (origin.x + x - e.1.x * S.x) := by
        refine decodeVal_into_raw_vec (by rw [hm0, hd0]) (by rw [hm1, hd1])
          (by rw [hm2, hd2]) ?_ ?_ ?_ <;> omega
      rw [hdec]
      have hbz1 : e.2.1.z ≤ origin.z + z - e.1.z * S.z ∧
          origin.z + z - e.1.z * S.z < e.2.2.z := by omega
      have hby1 : e.2.1.y ≤ origin.y + y - e.1.y * S.y ∧
          origin.y + y - e.1.y * S.y < e.2.2.y := by omega
      have hbx1 : e.2.1.x ≤ origin.x + x - e.1.x * S.x ∧
          origin.x + x - e.1.x * S.x < e.2.2.x := by omega
      have hpm := @putMerge_val S origin data T e array hx hy hz hst he
        hd0 hd1 hd2 _ _ _ hbz1 hby1 hbx1
      rw [hpm]
      have i1 : e.1.z * S.z + (origin.z + z - e.1.z * S.z) - origin.z = z := by
        omega
      have i2 : e.1.y * S.y + (origin.y + y - e.1.y * S.y) - origin.y = y := by
        omega
      have i3 : e.1.x * S.x + (origin.x + x - e.1.x * S.x) - origin.x = x := by
        omega
      rw [i1, i2, i3]

open ChunkedFileDataManager in
/-- Claim C4: whenever `ChunkedFileDataManager::get_data` finds the block
file for cuboid index `I` absent, it calls the next layer's `get_data`
for exactly the full cuboid-aligned region `[I·S, (I+1)·S)`, using the
per-axis component of the cuboid size on each of the three axes,
immediately persists the returned `(Sz, Sy, Sx)` array by invoking
`put_data` on this manager, and slices the freshly returned array (not a
re-read from disk) into the output buffer.  Stated for a run in which
every other touched block is present (an earlier miss may itself
zero-fill a boundary-neighbour block, after which this block's check no
longer finds it absent); the store is assumed well formed (every present
block file holds exactly `Sz·Sy·Sx` bytes) and the next layer is assumed
to return `(Sz, Sy, Sx)` arrays, as the spec requires of it. -/
theorem C4_miss_write_back (m : ChunkedFileDataManager) (next : NextLayer)
    (uri channel : String) (res : Nat) (origin destination : Vector3)
    (st : Store) (e : Vector3 × Vector3 × Vector3)
    (hx : 0 < m.cuboid_size.x) (hy : 0 < m.cuboid_size.y)
    (hz : 0 < m.cuboid_size.z)
    (hst : origin.x ≤ destination.x ∧ origin.y ≤ destination.y ∧
      origin.z ≤ destination.z)
    (hch : uriChannel uri = some channel)
    (he : e ∈ get_cuboids_and_indices origin destination m.cuboid_size)
    (hmiss : st ⟨channel, res, e.1⟩ = none)
    (hpresent : ∀ e' ∈ get_cuboids_and_indices origin destination m.cuboid_size,
      e' ≠ e → st ⟨channel, res, e'.1⟩ ≠ none)
    (hwf : ∀ k d, st k = some d →
      d.length = m.cuboid_size.z * (m.cuboid_size.y * m.cuboid_size.x))
    (hnext : ∀ c r o d, (next c r o d).dim0 = m.cuboid_size.z ∧
      (next c r o d).dim1 = m.cuboid_size.y ∧
      (next c r o d).dim2 = m.cuboid_size.x) :
    ∃ r, get_data m next uri res origin destination st = some r ∧
      r.2.2.1 = [(channel, res, cuboidOriginOf m.cuboid_size e.1,
        cuboidStopOf m.cuboid_size e.1)] ∧
      (∃ d, r.2.1 ⟨channel, res, e.1⟩ = some d ∧
        ∀ lz, lz < m.cuboid_size.z → ∀ ly, ly < m.cuboid_size.y →
          ∀ lx, lx < m.cuboid_size.x →
          decodeVal m.cuboid_size d lz ly lx =
            (next channel res (cuboidOriginOf m.cuboid_size e.1)
              (cuboidStopOf m.cuboid_size e.1)).val lz ly lx) ∧
      (∀ p : Vector3, coversPoint m.cuboid_size e
          ⟨origin.x + p.x, origin.y + p.y, origin.z + p.z⟩ →
        r.1.val p.z p.y p.x =
          (next channel res (cuboidOriginOf m.cuboid_size e.1)
            (cuboidStopOf m.cuboid_size e.1)).val
            (origin.z + p.z - e.1.z * m.cuboid_size.z)
            (origin.y + p.y - e.1.y * m.cuboid_size.y)
            (origin.x + p.x - e.1.x * m.cuboid_size.x)) := by
  set S := m.cuboid_size with hS
  set A := next channel res (cuboidOriginOf S e.1) (cuboidStopOf S e.1) with hA
  obtain ⟨hA0, hA1, hA2⟩ := hnext channel res (cuboidOriginOf S e.1)
    (cuboidStopOf S e.1)
  obtain ⟨l₁, l₂, hsplit, hnotin₁, hnotin₂⟩ :=
    mem_split_nodup (nodup_get_cuboids_and_indices origin destination S) he
  have hmemL : ∀ e' , e' ∈ l₁ ∨ e' ∈ l₂ → e' ∈
      get_cuboids_and_indices origin destination S := by
    intro e' h
    rw [hsplit]
    rcases h with h | h
    · exact List.mem_append_left _ h
    · exact List.mem_append_right _ (List.mem_cons_of_mem _ h)
  set g0 : GetState := ⟨Array3.zeros (destination.z - origin.z)
    (destination.y - origin.y) (destination.x - origin.x), st, [], []⟩ with hg0
  -- Phase 1: the entries before the miss all hit and change nothing.
  have hhit₁ : ∀ e' ∈ l₁, ∃ d, g0.store ⟨channel, res, e'.1⟩ = some d ∧
      d.length = S.z * (S.y * S.x) := by
    intro e' he'
    have hne : e' ≠ e := fun hcon => hnotin₁ (hcon ▸ he')
    have hpres := hpresent e' (hmemL e' (Or.inl he')) hne
    cases hkv : st ⟨channel, res, e'.1⟩ with
    | none => exact absurd hkv hpres
    | some d => exact ⟨d, hkv, hwf _ _ hkv⟩
  obtain ⟨g₁, hfold₁, hg₁s, hg₁u, hg₁d0, hg₁d1, hg₁d2, hunt₁, hcov₁⟩ :=
    @foldOpt_getStep_allhit m next uri channel res origin destination l₁ g0
      hx hy hz hst (fun e' he' => hmemL e' (Or.inl he')) hhit₁
  -- Phase 2: the write-back put succeeds on the well-formed store.
  have hpos : 0 < S.z * (S.y * S.x) :=
    Nat.mul_pos hz (Nat.mul_pos hy hx)
  obtain ⟨st₂, hfold₂, hwf₂, hpres₂⟩ :=
    @foldOpt_putStep_some m channel res (cuboidOriginOf S e.1) A
      (get_cuboids_and_indices (cuboidOriginOf S e.1)
        ⟨(cuboidOriginOf S e.1).x + A.dim2, (cuboidOriginOf S e.1).y + A.dim1,
          (cuboidOriginOf S e.1).z + A.dim0⟩ S) st hpos hwf
  have hput : put_data m uri res (cuboidOriginOf S e.1) A st =
      some (st₂, true) := by
    rw [put_data_eq m res (cuboidOriginOf S e.1) A st hch, hfold₂]
  -- The step at the missing entry.
  set g₂ : GetState := ⟨copyOut S origin e A g₁.large, st₂,
    g₁.upcalls ++ [(channel, res, cuboidOriginOf S e.1, cuboidStopOf S e.1)],
    if m.track_usage then g₁.events ++ [⟨channel, res, e.1⟩] else g₁.events⟩
    with hg₂
  have hstepe : getStep m next uri channel res origin g₁ e = some g₂ := by
    rw [getStep_eq]
    have hkey : g₁.store ⟨channel, res, e.1⟩ = none := by
      rw [hg₁s]
      exact hmiss
    rw [hkey]
    have hputg : put_data m uri res (cuboidOriginOf S e.1) A g₁.store =
        some (st₂, true) := by
      rw [hg₁s]
      exact hput
    rw [hputg]
  -- Phase 3: the entries after the miss all hit in the updated store.
  have hhit₂ : ∀ e' ∈ l₂, ∃ d, g₂.store ⟨channel, res, e'.1⟩ = some d ∧
      d.length = S.z * (S.y * S.x) := by
    intro e' he'
    have hne : e' ≠ e := fun hcon => hnotin₂ (hcon ▸ he')
    have hpres := hpresent e' (hmemL e' (Or.inr he')) hne
    cases hkv : st ⟨channel, res, e'.1⟩ with
    | none => exact absurd hkv hpres
    | some d =>
      obtain ⟨d', hd'⟩ := hpres₂ _ _ hkv
      exact ⟨d', hd', hwf₂ _ _ hd'⟩
  obtain ⟨g₃, hfold₃, hg₃s, hg₃u, hg₃d0, hg₃d1, hg₃d2, hunt₃, hcov₃⟩ :=
    @foldOpt_getStep_allhit m next uri channel res origin destination l₂ g₂
      hx hy hz hst (fun e' he' => hmemL e' (Or.inr he')) hhit₂
  -- Assemble the run.
  have hrun : get_data m next uri res origin destination st = some
      (g₃.large, g₃.store, g₃.upcalls, g₃.events) := by
    rw [get_data_eq m next res origin destination st hch, hsplit,
      foldOpt_append, hfold₁]
    simp only [Option.some_bind, foldOpt, hstepe, hfold₃]
  refine ⟨(g₃.large, g₃.store, g₃.upcalls, g₃.events), hrun, ?_, ?_, ?_⟩
  · -- exactly one upstream call, for the per-axis aligned region
    show g₃.upcalls = _
    rw [hg₃u]
    show g₁.upcalls ++ _ = _
    rw [hg₁u]
    rfl
  · -- the fetched array was persisted at the block's key
    have hfull : ((e.1, (⟨0, 0, 0⟩ : Vector3), S) :
        Vector3 × Vector3 × Vector3) ∈
        get_cuboids_and_indices (cuboidOriginOf S e.1)
          ⟨(cuboidOriginOf S e.1).x + A.dim2, (cuboidOriginOf S e.1).y + A.dim1,
            (cuboidOriginOf S e.1).z + A.dim0⟩ S := by
      rw [hA0, hA1, hA2]
      exact full_block_entry hx hy hz
    obtain ⟨_, hmem₂⟩ := foldOpt_putStep_char (fun e' he' => he') hfold₂
    obtain ⟨base, hb0, hb1, hb2, hval⟩ := hmem₂ _ hfull
    refine ⟨(putMerge S (cuboidOriginOf S e.1) A (e.1, ⟨0, 0, 0⟩, S)
      base).into_raw_vec, ?_, ?_⟩
    · show g₃.store ⟨channel, res, e.1⟩ = _
      rw [hg₃s]
      exact hval
    · intro lz hlz ly hly lx hlx
      obtain ⟨hm0, hm1, hm2⟩ :=
        putMerge_dims S (cuboidOriginOf S e.1) A (e.1, ⟨0, 0, 0⟩, S) base
      rw [decodeVal_into_raw_vec (by rw [hm0, hb0]) (by rw [hm1, hb1])
        (by rw [hm2, hb2]) hlz hly hlx]
      have hoz : (cuboidOriginOf S e.1).z = e.1.z * S.z := rfl
      have hoy : (cuboidOriginOf S e.1).y = e.1.y * S.y := rfl
      have hox : (cuboidOriginOf S e.1).x = e.1.x * S.x := rfl
      have hstp : (cuboidOriginOf S e.1).x ≤ (cuboidOriginOf S e.1).x + A.dim2 ∧
          (cuboidOriginOf S e.1).y ≤ (cuboidOriginOf S e.1).y + A.dim1 ∧
          (cuboidOriginOf S e.1).z ≤ (cuboidOriginOf S e.1).z + A.dim0 := by
        omega
      have hpm := @putMerge_val S (cuboidOriginOf S e.1) A
        ⟨(cuboidOriginOf S e.1).x + A.dim2, (cuboidOriginOf S e.1).y + A.dim1,
          (cuboidOriginOf S e.1).z + A.dim0⟩ (e.1, ⟨0, 0, 0⟩, S) base
        hx hy hz hstp hfull hb0 hb1 hb2 lz ly lx ⟨Nat.zero_le _, hlz⟩
        ⟨Nat.zero_le _, hly⟩ ⟨Nat.zero_le _, hlx⟩
      rw [hpm]
      have i1 : e.1.z * S.z + lz - (cuboidOriginOf S e.1).z = lz := by
        rw [hoz]; omega
      have i2 : e.1.y * S.y + ly - (cuboidOriginOf S e.1).y = ly := by
        rw [hoy]; omega
      have i3 : e.1.x * S.x + lx - (cuboidOriginOf S e.1).x = lx := by
        rw [hox]; omega
      rw [i1, i2, i3]
  · -- the output window is sliced from the freshly fetched array
    intro p hcov
    have hnc₂ : ∀ e' ∈ l₂, ¬coversPoint S e'
        ⟨origin.x + p.x, origin.y + p.y, origin.z + p.z⟩ := by
      intro e' he' hcov'
      have : e' = e := coversPoint_unique hx hy hz
        (hmemL e' (Or.inr he')) he hcov' hcov
      exact hnotin₂ (this ▸ he')
    show g₃.large.val p.z p.y p.x = _
    rw [hunt₃ p hnc₂]
    show (copyOut S origin e A g₁.large).val p.z p.y p.x = _
    exact copyOut_val_covered hx hy hz hst he hcov

/-- A small concrete manager (cuboid size 2×2×2, usage tracking on) used
to instantiate the theorems. -/
def sampleMgr : ChunkedFileDataManager := ⟨⟨2, 2, 2⟩, true⟩

/-- The empty block filesystem. -/
def emptyStore : Store := fun _ => none

/-- A next layer returning a full 2×2×2 block of value 9 for every
request. -/
def sampleNext : NextLayer := fun _ _ _ _ => ⟨2, 2, 2, fun _ _ _ => 9⟩

/-- A 1×1×1 input buffer holding the value 7. -/
def sampleData : Array3 := ⟨1, 1, 1, fun _ _ _ => 7⟩

/-- Claim C4, witness: the hypotheses are satisfiable at a concrete
input (a single-cuboid read of an empty store). -/
theorem C4_miss_write_back_witness :
    ((0:Nat) < 2 ∧ uriChannel "b://c" = some "c" ∧
      ((⟨0, 0, 0⟩ : Vector3), (⟨0, 0, 0⟩ : Vector3), (⟨1, 1, 1⟩ : Vector3)) ∈
        get_cuboids_and_indices ⟨0, 0, 0⟩ ⟨1, 1, 1⟩ ⟨2, 2, 2⟩ ∧
      emptyStore ⟨"c", 0, ⟨0, 0, 0⟩⟩ = none) ∧
    ∃ r, ChunkedFileDataManager.get_data sampleMgr sampleNext "b://c" 0
        ⟨0, 0, 0⟩ ⟨1, 1, 1⟩ emptyStore = some r ∧
      r.2.2.1 = [("c", 0,
        ChunkedFileDataManager.cuboidOriginOf sampleMgr.cuboid_size ⟨0, 0, 0⟩,
        ChunkedFileDataManager.cuboidStopOf sampleMgr.cuboid_size ⟨0, 0, 0⟩)] ∧
      (∃ d, r.2.1 ⟨"c", 0, ⟨0, 0, 0⟩⟩ = some d ∧
        ∀ lz, lz < sampleMgr.cuboid_size.z →
          ∀ ly, ly < sampleMgr.cuboid_size.y →
          ∀ lx, lx < sampleMgr.cuboid_size.x →
          decodeVal sampleMgr.cuboid_size d lz ly lx =
            (sampleNext "c" 0
              (ChunkedFileDataManager.cuboidOriginOf sampleMgr.cuboid_size
                ⟨0, 0, 0⟩)
              (ChunkedFileDataManager.cuboidStopOf sampleMgr.cuboid_size
                ⟨0, 0, 0⟩)).val lz ly lx) ∧
      (∀ p : Vector3, coversPoint sampleMgr.cuboid_size
          ((⟨0, 0, 0⟩ : Vector3), (⟨0, 0, 0⟩ : Vector3), (⟨1, 1, 1⟩ : Vector3))
          ⟨(⟨0, 0, 0⟩ : Vector3).x + p.x, (⟨0, 0, 0⟩ : Vector3).y + p.y,
            (⟨0, 0, 0⟩ : Vector3).z + p.z⟩ →
        r.1.val p.z p.y p.x =
          (sampleNext "c" 0
            (ChunkedFileDataManager.cuboidOriginOf sampleMgr.cuboid_size
              ⟨0, 0, 0⟩)
            (ChunkedFileDataManager.cuboidStopOf sampleMgr.cuboid_size
              ⟨0, 0, 0⟩)).val
            ((⟨0, 0, 0⟩ : Vector3).z + p.z - (⟨0, 0, 0⟩ : Vector3).z * sampleMgr.cuboid_size.z)
            ((⟨0, 0, 0⟩ : Vector3).y + p.y - (⟨0, 0, 0⟩ : Vector3).y * sampleMgr.cuboid_size.y)
            ((⟨0, 0, 0⟩ : Vector3).x + p.x - (⟨0, 0, 0⟩ : Vector3).x * sampleMgr.cuboid_size.x)) :=
  ⟨⟨by decide, by decide, by decide, rfl⟩,
    C4_miss_write_back sampleMgr sampleNext "b://c" "c" 0 ⟨0, 0, 0⟩ ⟨1, 1, 1⟩
      emptyStore ((⟨0, 0, 0⟩ : Vector3), (⟨0, 0, 0⟩ : Vector3),
        (⟨1, 1, 1⟩ : Vector3))
      (by decide) (by decide) (by decide) (by decide) (by decide) (by decide)
      rfl (by decide) (fun _ _ h => nomatch h)
      (fun _ _ _ _ => ⟨rfl, rfl, rfl⟩)⟩

/-- Claim C1, witness: the hypotheses are satisfiable at a concrete
input (the put completes on the empty store). -/
theorem C1_round_trip_witness :
    ((0:Nat) < 2 ∧ uriChannel "b://c" = some "c" ∧
      (ChunkedFileDataManager.put_data sampleMgr "b://c" 0 ⟨0, 0, 0⟩ sampleData
        emptyStore).isSome = true) ∧
    ∃ r, ChunkedFileDataManager.get_data sampleMgr sampleNext "b://c" 0 ⟨0, 0, 0⟩
        ⟨(⟨0, 0, 0⟩ : Vector3).x + sampleData.dim2,
          (⟨0, 0, 0⟩ : Vector3).y + sampleData.dim1,
          (⟨0, 0, 0⟩ : Vector3).z + sampleData.dim0⟩
        ((ChunkedFileDataManager.put_data sampleMgr "b://c" 0 ⟨0, 0, 0⟩ sampleData
          emptyStore).get (by decide)).1 = some r ∧ r.1.equiv sampleData :=
  ⟨⟨by decide, by decide, by decide⟩,
    C1_round_trip sampleMgr sampleNext "b://c" "c" 0 ⟨0, 0, 0⟩ sampleData
      emptyStore _ (by decide) (by decide) (by decide) (by decide)
      (Option.some_get _).symm⟩

open ChunkedFileDataManager in
/-- Claim C10: for every channel URI with a scheme prefix, resolution,
origin, and data buffer, `ChunkedFileDataManager::put_data` returns
`true`: the reported success boolean never indicates failure (per-block
write errors are only printed and the loop continues; the source returns
a literal `true` after the loop). -/
theorem C10_put_reports_success (m : ChunkedFileDataManager) (uri : String)
    (res : Nat) (origin : Vector3) (data : Array3) (st : Store)
    (out : Store × Bool)
    (h : put_data m uri res origin data st = some out) : out.2 = true := by
  cases huc : uriChannel uri with
  | none =>
    unfold put_data at h
    rw [huc] at h
    simp at h
  | some channel =>
    rw [put_data_eq m res origin data st huc] at h
    revert h
    cases foldOpt (putStep m channel res origin data) st
        (get_cuboids_and_indices origin
          ⟨origin.x + data.dim2, origin.y + data.dim1, origin.z + data.dim0⟩
          m.cuboid_size) with
    | none => intro h; cases h
    | some st' =>
      intro h
      simp only [Option.some.injEq] at h
      rw [← h]

/-- Claim C10, witness: the hypothesis is satisfiable at a concrete
input. -/
theorem C10_put_reports_success_witness :
    (ChunkedFileDataManager.put_data sampleMgr "b://c" 0 ⟨0, 0, 0⟩ sampleData
      emptyStore).isSome = true ∧
    ((ChunkedFileDataManager.put_data sampleMgr "b://c" 0 ⟨0, 0, 0⟩ sampleData
      emptyStore).get (by decide)).2 = true :=
  ⟨by decide,
    C10_put_reports_success sampleMgr "b://c" 0 ⟨0, 0, 0⟩ sampleData emptyStore
      _ (Option.some_get _).symm⟩

/-- Claim C5, counterexample: a zero-extent read `(2,2,2) → (2,2,2)` of
an empty store does return a `(0,0,0)` buffer, but the single covering
cuboid is still processed: the run makes one call to the next layer and
emits one usage event, refuting "no upstream call; no usage events". -/
theorem C5_zero_extent_counterexample :
    (ChunkedFileDataManager.get_data sampleMgr sampleNext "b://c" 0 ⟨2, 2, 2⟩
        ⟨2, 2, 2⟩ emptyStore).map
      (fun r => (r.1.dim0, r.1.dim1, r.1.dim2, r.2.2.1.length,
        r.2.2.2.length)) = some (0, 0, 0, 1, 1) := by
  decide

/-- The decomposition of a zero-extent window is a single entry for the
covering cuboid, with a zero-width local range. -/
theorem get_cuboids_and_indices_self (p S : Vector3) :
    get_cuboids_and_indices p p S =
      [(⟨p.x / S.x, p.y / S.y, p.z / S.z⟩,
        startCoordsOf p S ⟨p.x / S.x, p.y / S.y, p.z / S.z⟩,
        stopCoordsOf p S ⟨p.x / S.x, p.y / S.y, p.z / S.z⟩)] := by
  have h1 : ∀ a : Nat, a + 1 - a = 1 := fun a => by omega
  have h2 : List.range 1 = [0] := rfl
  unfold get_cuboids_and_indices cuboidRange startCoordsOf stopCoordsOf
    localStartAxis localStopAxis
  simp [h1, h2, Function.comp]

theorem foldOpt_singleton {σ α : Type} (f : σ → α → Option σ) (st : σ)
    (a : α) : foldOpt f st [a] = f st a := by
  simp only [foldOpt]
  cases f st a <;> rfl

open ChunkedFileDataManager in
/-- Claim C5 (amended): a zero-extent read (origin = destination) returns
a buffer of shape `(0,0,0)`, but the single covering cuboid is still
processed: when usage tracking is enabled exactly one usage event (the
covering block's key) is emitted, and when the covering block's file is
absent the next layer is called (once, for the full cuboid region) —
there is no upstream call only when the block is present. -/
theorem C5_zero_extent_amended (m : ChunkedFileDataManager) (next : NextLayer)
    (uri channel : String) (res : Nat) (p : Vector3) (st : Store)
    (r : Array3 × Store × List (String × Nat × Vector3 × Vector3) ×
      List BlockKey)
    (hx : 0 < m.cuboid_size.x) (hy : 0 < m.cuboid_size.y)
    (hz : 0 < m.cuboid_size.z)
    (hch : uriChannel uri = some channel)
    (h : get_data m next uri res p p st = some r) :
    (r.1.dim0 = 0 ∧ r.1.dim1 = 0 ∧ r.1.dim2 = 0) ∧
    r.2.2.2 = (if m.track_usage then
      [⟨channel, res, ⟨p.x / m.cuboid_size.x, p.y / m.cuboid_size.y,
        p.z / m.cuboid_size.z⟩⟩] else []) ∧
    r.2.2.1 = (match st ⟨channel, res, ⟨p.x / m.cuboid_size.x,
        p.y / m.cuboid_size.y, p.z / m.cuboid_size.z⟩⟩ with
      | some _ => []
      | none => [(channel, res,
          cuboidOriginOf m.cuboid_size ⟨p.x / m.cuboid_size.x,
            p.y / m.cuboid_size.y, p.z / m.cuboid_size.z⟩,
          cuboidStopOf m.cuboid_size ⟨p.x / m.cuboid_size.x,
            p.y / m.cuboid_size.y, p.z / m.cuboid_size.z⟩)]) := by
  rw [get_data_eq m next res p p st hch, get_cuboids_and_indices_self,
    foldOpt_singleton, getStep_eq] at h
  simp only at h
  cases hk : st ⟨channel, res, ⟨p.x / m.cuboid_size.x, p.y / m.cuboid_size.y,
      p.z / m.cuboid_size.z⟩⟩ with
  | some d =>
    rw [hk] at h
    simp only at h
    cases hfs : Array3.from_shape_vec m.cuboid_size.z m.cuboid_size.y
        m.cuboid_size.x d with
    | none =>
      rw [hfs] at h
      simp at h
    | some array =>
      rw [hfs] at h
      simp only [Option.some.injEq] at h
      rw [← h]
      refine ⟨⟨?_, ?_, ?_⟩, ?_, ?_⟩
      · show p.z - p.z = 0
        omega
      · show p.y - p.y = 0
        omega
      · show p.x - p.x = 0
        omega
      · show (if m.track_usage then ([] : List BlockKey) ++ _
            else ([] : List BlockKey)) = _
        rw [List.nil_append]
      · rfl
  | none =>
    rw [hk] at h
    simp only at h
    cases hput : put_data m uri res
        (cuboidOriginOf m.cuboid_size ⟨p.x / m.cuboid_size.x,
          p.y / m.cuboid_size.y, p.z / m.cuboid_size.z⟩)
        (next channel res
          (cuboidOriginOf m.cuboid_size ⟨p.x / m.cuboid_size.x,
            p.y / m.cuboid_size.y, p.z / m.cuboid_size.z⟩)
          (cuboidStopOf m.cuboid_size ⟨p.x / m.cuboid_size.x,
            p.y / m.cuboid_size.y, p.z / m.cuboid_size.z⟩)) st with
    | none =>
      rw [hput] at h
      simp at h
    | some out =>
      obtain ⟨st₂, b⟩ := out
      rw [hput] at h
      simp only [Option.some.injEq] at h
      rw [← h]
      refine ⟨⟨?_, ?_, ?_⟩, ?_, ?_⟩
      · show p.z - p.z = 0
        omega
      · show p.y - p.y = 0
        omega
      · show p.x - p.x = 0
        omega
      · show (if m.track_usage then ([] : List BlockKey) ++ _
            else ([] : List BlockKey)) = _
        rw [List.nil_append]
      · show ([] : List (String × Nat × Vector3 × Vector3)) ++ _ = _
        rw [List.nil_append]

/-- Claim C5 (amended), witness: the hypotheses are satisfiable at a
concrete input. -/
theorem C5_zero_extent_amended_witness :
    ((0:Nat) < 2 ∧ uriChannel "b://c" = some "c" ∧
      (ChunkedFileDataManager.get_data sampleMgr sampleNext "b://c" 0 ⟨2, 2, 2⟩
        ⟨2, 2, 2⟩ emptyStore).isSome = true) ∧
    (((ChunkedFileDataManager.get_data sampleMgr sampleNext "b://c" 0 ⟨2, 2, 2⟩
        ⟨2, 2, 2⟩ emptyStore).get (by decide)).1.dim0 = 0 ∧
      ((ChunkedFileDataManager.get_data sampleMgr sampleNext "b://c" 0 ⟨2, 2, 2⟩
        ⟨2, 2, 2⟩ emptyStore).get (by decide)).1.dim1 = 0 ∧
      ((ChunkedFileDataManager.get_data sampleMgr sampleNext "b://c" 0 ⟨2, 2, 2⟩
        ⟨2, 2, 2⟩ emptyStore).get (by decide)).1.dim2 = 0) ∧
    ((ChunkedFileDataManager.get_data sampleMgr sampleNext "b://c" 0 ⟨2, 2, 2⟩
        ⟨2, 2, 2⟩ emptyStore).get (by decide)).2.2.2 =
      (if sampleMgr.track_usage then
        [⟨"c", 0, ⟨2 / sampleMgr.cuboid_size.x, 2 / sampleMgr.cuboid_size.y,
          2 / sampleMgr.cuboid_size.z⟩⟩] else []) ∧
    ((ChunkedFileDataManager.get_data sampleMgr sampleNext "b://c" 0 ⟨2, 2, 2⟩
        ⟨2, 2, 2⟩ emptyStore).get (by decide)).2.2.1 =
      (match emptyStore ⟨"c", 0, ⟨2 / sampleMgr.cuboid_size.x,
          2 / sampleMgr.cuboid_size.y, 2 / sampleMgr.cuboid_size.z⟩⟩ with
        | some _ => []
        | none => [("c", 0,
            ChunkedFileDataManager.cuboidOriginOf sampleMgr.cuboid_size
              ⟨2 / sampleMgr.cuboid_size.x, 2 / sampleMgr.cuboid_size.y,
                2 / sampleMgr.cuboid_size.z⟩,
            ChunkedFileDataManager.cuboidStopOf sampleMgr.cuboid_size
              ⟨2 / sampleMgr.cuboid_size.x, 2 / sampleMgr.cuboid_size.y,
                2 / sampleMgr.cuboid_size.z⟩)]) :=
  ⟨⟨by decide, by decide, by decide⟩,
    (C5_zero_extent_amended sampleMgr sampleNext "b://c" "c" 0 ⟨2, 2, 2⟩
      emptyStore _ (by decide) (by decide) (by decide) (by decide)
      (Option.some_get _).symm).1,
    (C5_zero_extent_amended sampleMgr sampleNext "b://c" "c" 0 ⟨2, 2, 2⟩
      emptyStore _ (by decide) (by decide) (by decide) (by decide)
      (Option.some_get _).symm).2.1,
    (C5_zero_extent_amended sampleMgr sampleNext "b://c" "c" 0 ⟨2, 2, 2⟩
      emptyStore _ (by decide) (by decide) (by decide) (by decide)
      (Option.some_get _).symm).2.2⟩

/-- A store holding an existing but empty (0-byte) block file for the
cuboid at index `(0,0,0)`. -/
def storeWithEmptyBlock : Store :=
  fun k => if k = ⟨"c", 0, ⟨0, 0, 0⟩⟩ then some [] else none

open ChunkedFileDataManager in
/-- Claim C6: the claim is right about `put_data` and about the spec's
intent, but `get_data` tests only file existence (src/data_manager.rs,
line 301): on an existing 0-byte block file it does not fall through to
the next layer — `Array::from_shape_vec(..).unwrap()` panics (modelled
as `none`).  `put_data` on the same store does treat the empty file as a
miss and succeeds. -/
theorem C6_empty_block_read_panics :
    ChunkedFileDataManager.get_data sampleMgr sampleNext "b://c" 0 ⟨0, 0, 0⟩
      ⟨1, 1, 1⟩ storeWithEmptyBlock = none ∧
    (ChunkedFileDataManager.put_data sampleMgr "b://c" 0 ⟨0, 0, 0⟩ sampleData
      storeWithEmptyBlock).map (fun out => out.2) = some true :=
  ⟨rfl, rfl⟩

/-- A row of the `cuboids` table (src/db/models.rs): id, cache-root
foreign key, key relative to the root, request count, and timestamps
(timestamps are opaque strings here; `log_request` writes
`Utc::now().naive_utc().to_string()`). -/
structure Cuboid where
  id : Int
  cache_root : Int
  cube_key : String
  requests : Int
  created : String
  last_accessed : String
deriving DecidableEq

namespace SqliteCacheInterface

/-- `SqliteCacheInterface::log_request` (src/db.rs, lines 369-408) with
the SQLite `cuboids` table as a list of rows.  `key.split_at(path_len)`
is modelled by `String.drop` (byte and char positions coincide for the
ASCII paths involved); `now` is the current timestamp and `freshId` the
row id the insert would allocate.  The UPDATE filters on `cube_key`
alone (not on the cache root); if it matched any row, `false` is
returned; otherwise a new row with the active root id and
`requests = 1` is inserted and `true` returned. -/
def log_request (cache_root_id : Int) (path_len : Nat) (freshId : Int)
    (now : String) (rows : List Cuboid) (key : String) :
    List Cuboid × Bool :=
  let remainder := key.drop path_len
  let num_rows := (rows.filter fun r => r.cube_key == remainder).length
  if 0 < num_rows then
    (rows.map fun r =>
      if r.cube_key == remainder then
        { r with requests := r.requests + 1, last_accessed := now }
      else r,
      false)
  else
    (rows ++
      [{ id := freshId, cache_root := cache_root_id, cube_key := remainder,
         requests := 1, created := now, last_accessed := now }], true)

/-- One iteration of the `clean_cache` loop (src/db.rs, lines 292-311):
resolve the record's cache-root path (silently skipping the record when
it cannot be resolved), attempt the file removal, and on its success
attempt the row removal, counting the record only when both succeed.
The accumulator carries the count and the list of file paths whose
removal was attempted (the calls to the pluggable file remover). -/
def cleanStep (lookup : Int → Option String) (file_remove_ok : String → Bool)
    (entry_remove_ok : Int → Bool) (acc : Nat × List String)
    (cuboid : Cuboid) : Nat × List String :=
  match lookup cuboid.cache_root with
  | none => acc
  | some root_path =>
    if file_remove_ok (root_path ++ cuboid.cube_key) then
      if entry_remove_ok cuboid.id then
        (acc.1 + 1, acc.2 ++ [root_path ++ cuboid.cube_key])
      else (acc.1, acc.2 ++ [root_path ++ cuboid.cube_key])
    else (acc.1, acc.2 ++ [root_path ++ cuboid.cube_key])

/-- `SqliteCacheInterface::clean_cache` (src/db.rs, lines 289-314): the
root-path lookup (in-memory map or `cache_roots` table) and the two
removal steps are oracles; returns the number of records fully removed
together with the attempted file removals. -/
def clean_cache (lookup : Int → Option String) (file_remove_ok : String → Bool)
    (entry_remove_ok : Int → Bool) (unwanted : List Cuboid) :
    Nat × List String :=
  unwanted.foldl (cleanStep lookup file_remove_ok entry_remove_ok) (0, [])

end SqliteCacheInterface

/-- A row under a foreign cache root (id 2) with key `/k`. -/
def fgnRow : Cuboid := ⟨10, 2, "/k", 3, "t0", "t0"⟩

/-- Claim C7, counterexample: with active root id 1 and a table holding
only a row for root 2 with blockKey `/k`, no row matches
`(activeRootId, blockKey) = (1, "/k")`, yet `log_request` returns
`false` and inserts nothing — the UPDATE matched on `cube_key` alone. -/
theorem C7_log_access_counterexample :
    (SqliteCacheInterface.log_request 1 5 99 "t1" [fgnRow] "/root/k").2 =
      false ∧
    ([fgnRow].filter fun r =>
      decide (r.cache_root = 1) && (r.cube_key == "/k")) = [] ∧
    (SqliteCacheInterface.log_request 1 5 99 "t1" [fgnRow] "/root/k").1.length
      = 1 := by
  refine ⟨?_, ?_, ?_⟩ <;> decide

/-- Claim C7 (amended): `log_request` strips the cache-root prefix to
obtain blockKey, updates every existing row whose `cube_key` matches
blockKey — regardless of its cache root — by incrementing requestCount
and setting lastAccessedAt to now, inserts a new row (under the active
root id) with requestCount = 1 only when no row with that blockKey
exists, and returns true iff a new row was inserted. -/
theorem C7_log_access_amended (cache_root_id : Int) (path_len : Nat)
    (freshId : Int) (now : String) (rows : List Cuboid) (key : String) :
    ((SqliteCacheInterface.log_request cache_root_id path_len freshId now rows
        key).2 = true ↔
      ∀ r ∈ rows, r.cube_key ≠ key.drop path_len) ∧
    ((SqliteCacheInterface.log_request cache_root_id path_len freshId now rows
        key).2 = true →
      (SqliteCacheInterface.log_request cache_root_id path_len freshId now rows
        key).1 = rows ++ [⟨freshId, cache_root_id, key.drop path_len, 1,
          now, now⟩]) ∧
    ((SqliteCacheInterface.log_request cache_root_id path_len freshId now rows
        key).2 = false →
      (SqliteCacheInterface.log_request cache_root_id path_len freshId now rows
        key).1 = rows.map fun r =>
          if r.cube_key == key.drop path_len then
            { r with requests := r.requests + 1, last_accessed := now }
          else r) := by
  unfold SqliteCacheInterface.log_request
  by_cases hnum : 0 < (rows.filter fun r =>
      r.cube_key == key.drop path_len).length
  · rw [if_pos hnum]
    simp only [Bool.false_eq_true, false_iff, not_forall]
    refine ⟨?_, ?_, ?_⟩
    · have hne : (rows.filter fun r =>
          r.cube_key == key.drop path_len) ≠ [] := by
        intro hcon
        rw [hcon] at hnum
        simp at hnum
      obtain ⟨r, hr⟩ := List.exists_mem_of_ne_nil _ hne
      have := List.mem_filter.mp hr
      push_neg
      exact ⟨r, this.1, by simpa using this.2⟩
    · intro hcon
      cases hcon
    · intro _
      trivial
  · rw [if_neg hnum]
    simp only [true_iff]
    refine ⟨?_, ?_, ?_⟩
    · intro r hr hcon
      have hmem : r ∈ rows.filter fun r => r.cube_key == key.drop path_len :=
        List.mem_filter.mpr ⟨hr, by simpa using hcon⟩
      exact hnum (List.length_pos.mpr (fun hcon' => by
        rw [hcon'] at hmem; cases hmem))
    · intro _
      trivial
    · intro hcon
      cases hcon

/-- Claim C7 (amended), witness: a concrete application of the amended
characterisation. -/
theorem C7_log_access_amended_witness :
    ((SqliteCacheInterface.log_request 1 5 99 "t1" [fgnRow] "/root/k").2 =
        true ↔
      ∀ r ∈ [fgnRow], r.cube_key ≠ "/root/k".drop 5) ∧
    ((SqliteCacheInterface.log_request 1 5 99 "t1" [fgnRow] "/root/k").2 =
        true →
      (SqliteCacheInterface.log_request 1 5 99 "t1" [fgnRow] "/root/k").1 =
        [fgnRow] ++ [⟨99, 1, "/root/k".drop 5, 1, "t1", "t1"⟩]) ∧
    ((SqliteCacheInterface.log_request 1 5 99 "t1" [fgnRow] "/root/k").2 =
        false →
      (SqliteCacheInterface.log_request 1 5 99 "t1" [fgnRow] "/root/k").1 =
        [fgnRow].map fun r =>
          if r.cube_key == "/root/k".drop 5 then
            { r with requests := r.requests + 1, last_accessed := "t1" }
          else r) :=
  C7_log_access_amended 1 5 99 "t1" [fgnRow] "/root/k"

/-- A record whose cache-root id (7) resolves to no known root path. -/
def orphanRow : Cuboid := ⟨5, 7, "/k", 1, "t0", "t0"⟩

/-- Claim C8, counterexample: for a record whose cache root cannot be
resolved, `clean_cache` attempts no file deletion at all (the attempted
list is empty) — the record is skipped silently, refuting "attempts,
for each record, to delete the on-disk file". -/
theorem C8_eviction_counterexample :
    SqliteCacheInterface.clean_cache (fun _ => none) (fun _ => true)
      (fun _ => true) [orphanRow] = (0, []) := by
  decide

/-- Claim C8 (amended): for each record whose cache-root path resolves,
`clean_cache` attempts to delete the on-disk file and then (only if
that succeeded) the metadata row; records with an unresolvable root are
skipped without any deletion attempt; the returned count is exactly the
number of records for which the root resolved and both steps succeeded;
an error in either step counts the record as not removed and does not
stop processing of the remaining records. -/
theorem C8_eviction_amended (lookup : Int → Option String)
    (file_remove_ok : String → Bool) (entry_remove_ok : Int → Bool)
    (unwanted : List Cuboid) :
    SqliteCacheInterface.clean_cache lookup file_remove_ok entry_remove_ok
        unwanted =
      ((unwanted.filter fun c =>
          match lookup c.cache_root with
          | some rp => file_remove_ok (rp ++ c.cube_key) &&
              entry_remove_ok c.id
          | none => false).length,
        unwanted.filterMap fun c =>
          (lookup c.cache_root).map fun rp => rp ++ c.cube_key) := by
  have hgo : ∀ (l : List Cuboid) (n : Nat) (acc : List String),
      l.foldl (SqliteCacheInterface.cleanStep lookup file_remove_ok
        entry_remove_ok) (n, acc) =
      (n + (l.filter fun c =>
          match lookup c.cache_root with
          | some rp => file_remove_ok (rp ++ c.cube_key) &&
              entry_remove_ok c.id
          | none => false).length,
        acc ++ l.filterMap fun c =>
          (lookup c.cache_root).map fun rp => rp ++ c.cube_key) := by
    intro l
    induction l with
    | nil => intro n acc; simp
    | cons c l ih =>
      intro n acc
      simp only [List.foldl_cons, List.filter_cons, List.filterMap_cons]
      cases hl : lookup c.cache_root with
      | none =>
        rw [show SqliteCacheInterface.cleanStep lookup file_remove_ok
            entry_remove_ok (n, acc) c = (n, acc) by
          unfold SqliteCacheInterface.cleanStep; rw [hl]]
        rw [ih n acc]
        simp
      | some rp =>
        by_cases hf : file_remove_ok (rp ++ c.cube_key)
        · by_cases hg : entry_remove_ok c.id
          · rw [show SqliteCacheInterface.cleanStep lookup file_remove_ok
                entry_remove_ok (n, acc) c =
                (n + 1, acc ++ [rp ++ c.cube_key]) by
              unfold SqliteCacheInterface.cleanStep
              rw [hl]
              simp [hf, hg]]
            rw [ih (n + 1) (acc ++ [rp ++ c.cube_key])]
            simp [hf, hg]
            omega
          · rw [show SqliteCacheInterface.cleanStep lookup file_remove_ok
                entry_remove_ok (n, acc) c =
                (n, acc ++ [rp ++ c.cube_key]) by
              unfold SqliteCacheInterface.cleanStep
              rw [hl]
              simp [hf, hg]]
            rw [ih n (acc ++ [rp ++ c.cube_key])]
            simp [hf, hg]
        · rw [show SqliteCacheInterface.cleanStep lookup file_remove_ok
              entry_remove_ok (n, acc) c =
              (n, acc ++ [rp ++ c.cube_key]) by
            unfold SqliteCacheInterface.cleanStep
            rw [hl]
            simp [hf]]
          rw [ih n (acc ++ [rp ++ c.cube_key])]
          simp [hf]
  unfold SqliteCacheInterface.clean_cache
  rw [hgo]
  simp

/-- `UsageTrackerType` (src/usage_tracker.rs). -/
inductive UsageTrackerType
  | None
  | Console
  | Sqlite
deriving DecidableEq

namespace usage_tracker

/-- `usage_tracker::run` (src/usage_tracker.rs, lines 85-104).  The
global `SENDER_MUTEX` cell is the boolean state (`true` = initialised);
`panic!("run() may only be called once")` is `Except.error ()`.  A
`None` tracker returns immediately without touching the cell; any other
kind panics if the cell is already set and otherwise sets it. -/
def run (kind : UsageTrackerType) (sender_mutex : Bool) : Except Unit Bool :=
  match kind with
  | UsageTrackerType.None => Except.ok sender_mutex
  | _ => if sender_mutex then Except.error () else Except.ok true

end usage_tracker

/-- Claim C9, counterexample: two successive invocations of `run` with
tracker kind `None` both succeed (the `None` early-return precedes the
double-initialisation check), refuting "whatever tracker kinds are
passed, the second invocation fails". -/
theorem C9_single_init_counterexample :
    usage_tracker.run UsageTrackerType.None false = Except.ok false ∧
    usage_tracker.run UsageTrackerType.None
      ((usage_tracker.run UsageTrackerType.None false).toOption.getD true) =
      Except.ok false :=
  ⟨rfl, rfl⟩

/-- Claim C9 (amended): starting from the uninitialised state, after a
first successful invocation of `run`, a second invocation fails iff
both invocations use a non-`None` tracker kind; `run` with kind `None`
returns immediately, never initialises, and never fails. -/
theorem C9_single_init_amended (k₁ k₂ : UsageTrackerType) (s₁ : Bool)
    (h : usage_tracker.run k₁ false = Except.ok s₁) :
    (usage_tracker.run k₂ s₁ = Except.error ()) ↔
      (k₁ ≠ UsageTrackerType.None ∧ k₂ ≠ UsageTrackerType.None) := by
  cases k₁ <;> cases k₂ <;>
    simp only [usage_tracker.run, Except.ok.injEq] at h ⊢ <;>
    first
      | (subst h; simp)
      | (cases h; simp)
      | simp_all

/-- Claim C9 (amended), witness: a concrete application with two
non-`None` invocations, where the second does fail. -/
theorem C9_single_init_amended_witness :
    usage_tracker.run UsageTrackerType.Console false = Except.ok true ∧
    ((usage_tracker.run UsageTrackerType.Sqlite true = Except.error ()) ↔
      (UsageTrackerType.Console ≠ UsageTrackerType.None ∧
        UsageTrackerType.Sqlite ≠ UsageTrackerType.None)) :=
  ⟨rfl, C9_single_init_amended UsageTrackerType.Console UsageTrackerType.Sqlite
    true rfl⟩

end Bossphorus
